import Mathlib

/-!
Verification development for the blk-merge repository: a shallow embedding of
the BLK configuration parser (src/parsers/blk.rs), its historical predecessor
(src/parser.rs), the AST (src/types.rs) and the serializer (stringify_config
in src/types.rs), together with theorems settling the specified properties.

Modelling conventions:
* The Rust code parses `&str` slices with nom combinators.  Input is modelled
  as `List Char`; every parser maps an input to either a parse error or a pair
  of (remaining input, value), mirroring nom's `IResult`.
* The recursion of the grammar (block inside section inside block) is modelled
  with an explicit fuel argument on the block parser; the fuel bound
  `input.length + 1` is proven sufficient below, so the fuel-exhaustion error
  is unreachable at the entry points.  nom's `many0`/`many1` infinite-loop
  guard (error when the inner parser succeeds without consuming) is modelled
  faithfully.
* nom distinguishes backtrackable errors (`Err::Error`, caught by
  `alt`/`opt`/`many0`) from hard failures (`Err::Failure`, raised by `cut` and
  propagated by every combinator).  Both are modelled: `PError.syntaxErr` is
  the backtrackable error, `PError.failure` the hard one, and `cutP` converts
  the former into the latter exactly where the source grammar uses `cut` —
  inside the exponent of nom's `recognize_float` (a dangling `e`/`E` with no
  digits aborts the whole parse).
* IEEE-754 `f32` values are not embedded; a real literal is modelled by the
  exact token the nom `float` grammar consumes (optional sign, digits with
  optional fraction, optional exponent, or the nan/inf/infinity exceptions),
  and the serializer prints that token back.  The f32 value pipeline of the
  Rust code — `str::parse::<f32>` with correct rounding and overflow to
  ±infinity, and the shortest-round-trip `Display` re-rendering in the
  serializer — is outside this embedding; properties that depend on the
  numeric values of real literals (such as re-parsability of the rendering of
  an overflowed literal) are out of scope of this development.
* `i32` values are modelled as `Int` with the range check nom's
  `character::complete::i32` performs (failure on overflow).
-/

set_option maxRecDepth 40000

namespace Blk

/-- Input text, the Rust `&str` slice, as a list of characters. -/
abbrev Input := List Char

/-- Rule kinds carried by syntax errors, mirroring nom's ErrorKind values. -/
inductive ErrKind where
  | tagK | charK | alphaK | digitK | many0K | many1K | takeUntilK | intRangeK
  deriving DecidableEq, Repr

/-- A parse error: the artificial fuel-exhaustion marker used to model the
grammar's recursion (proved unreachable at the fuel bounds used by the entry
points), a backtrackable syntax error (nom `Err::Error`, caught by
`alt`/`opt`/`many0`), or a hard failure (nom `Err::Failure`, raised by `cut`
and propagated by every combinator).  Errors carry the remaining input and
the failing rule kind, as nom errors do. -/
inductive PError where
  | fuelOut
  | syntaxErr (rest : Input) (kind : ErrKind)
  | failure (rest : Input) (kind : ErrKind)
  deriving DecidableEq, Repr

/-- Result of a parser: nom's `IResult` (remaining input, value) or an error. -/
abbrev PResult (α : Type) := Except PError (Input × α)

/-- A parser on character lists, the model of a nom parser on `&str`. -/
abbrev Parser (α : Type) := Input → PResult α

/-- ASCII alphabetic, the character class of nom's `alpha1`. -/
def isAlphaC (c : Char) : Bool :=
  decide (('a' ≤ c ∧ c ≤ 'z') ∨ ('A' ≤ c ∧ c ≤ 'Z'))

/-- ASCII decimal digit, the character class of nom's `digit1`. -/
def isDigitC (c : Char) : Bool :=
  decide ('0' ≤ c ∧ c ≤ '9')

/-- Whitespace accepted by nom's `multispace0`: space, tab, CR, LF. -/
def isSpaceC (c : Char) : Bool :=
  decide (c = ' ' ∨ c = '\t' ∨ c = '\r' ∨ c = '\n')

/-- Identifier characters: letters, digits and underscore. -/
def isIdentC (c : Char) : Bool :=
  isAlphaC c || isDigitC c || decide (c = '_')

/-- Take one or more characters of a class, as nom's `alpha1`/`digit1` do. -/
def takeWhile1 (p : Char → Bool) (k : ErrKind) : Parser (List Char) := fun i =>
  match i.takeWhile p with
  | [] => .error (.syntaxErr i k)
  | c :: cs => .ok (i.dropWhile p, c :: cs)

/-- nom `alpha1`: one or more ASCII letters. -/
def alpha1 : Parser (List Char) := takeWhile1 isAlphaC .alphaK

/-- nom `digit1`: one or more ASCII digits. -/
def digit1 : Parser (List Char) := takeWhile1 isDigitC .digitK

/-- nom `multispace0`: zero or more spaces, tabs, CRs, LFs; never fails. -/
def multispace0 : Parser (List Char) := fun i =>
  .ok (i.dropWhile isSpaceC, i.takeWhile isSpaceC)

/-- nom `char(c)`: exactly the character `c`. -/
def charP (c : Char) : Parser Char := fun i =>
  match i with
  | [] => .error (.syntaxErr [] .charK)
  | c' :: r => if c' = c then .ok (r, c) else .error (.syntaxErr (c' :: r) .charK)

/-- Matcher for nom `tag`: returns the remaining input when `t` is a prefix. -/
def tagGo : List Char → Input → Option Input
  | [], i => some i
  | _ :: _, [] => none
  | t :: ts, c :: cs => if c = t then tagGo ts cs else none

/-- nom `tag(t)`: the literal character sequence `t`. -/
def tagP (t : List Char) : Parser (List Char) := fun i =>
  match tagGo t i with
  | some r => .ok (r, t)
  | none => .error (.syntaxErr i .tagK)

/-- ASCII lower-casing used by nom's case-insensitive tag comparison. -/
def lowerC (c : Char) : Char :=
  if 'A' ≤ c ∧ c ≤ 'Z' then Char.ofNat (c.toNat + 32) else c

/-- Matcher for nom `tag_no_case`. -/
def tagNoCaseGo : List Char → Input → Option Input
  | [], i => some i
  | _ :: _, [] => none
  | t :: ts, c :: cs => if lowerC c = lowerC t then tagNoCaseGo ts cs else none

/-- nom `tag_no_case(t)`: `t` up to ASCII case; the value is the input slice. -/
def tagNoCaseP (t : List Char) : Parser (List Char) := fun i =>
  match tagNoCaseGo t i with
  | some r => .ok (r, i.take t.length)
  | none => .error (.syntaxErr i .tagK)

/-- nom `alt`: try `p`, and on a backtrackable error try `q`.  Hard failures
(`Err::Failure`) and the artificial fuel-exhaustion marker are propagated,
never caught. -/
def altP {α : Type} (p q : Parser α) : Parser α := fun i =>
  match p i with
  | .ok x => .ok x
  | .error .fuelOut => .error .fuelOut
  | .error (.syntaxErr _ _) => q i
  | .error (.failure r k) => .error (.failure r k)

/-- nom `opt`: an optional parser; backtrackable errors yield `none`, hard
failures and fuel exhaustion are propagated. -/
def optP {α : Type} (p : Parser α) : Parser (Option α) := fun i =>
  match p i with
  | .ok (r, a) => .ok (r, some a)
  | .error .fuelOut => .error .fuelOut
  | .error (.syntaxErr _ _) => .ok (i, none)
  | .error (.failure r k) => .error (.failure r k)

/-- Sequencing of parsers (the building block for nom tuples/`delimited`). -/
def bindP {α β : Type} (p : Parser α) (f : α → Parser β) : Parser β := fun i =>
  match p i with
  | .error e => .error e
  | .ok (r, a) => f a r

/-- nom `map`: apply a function to the parsed value. -/
def mapP {α β : Type} (p : Parser α) (f : α → β) : Parser β := fun i =>
  match p i with
  | .error e => .error e
  | .ok (r, a) => .ok (r, f a)

/-- A parser returning a fixed value without consuming input. -/
def pureP {α : Type} (a : α) : Parser α := fun i => .ok (i, a)

/-- nom `cut`: convert a backtrackable error of `p` into a hard failure, so
that enclosing `alt`/`opt`/`many0` no longer backtrack over it; successes and
the other error kinds pass through unchanged. -/
def cutP {α : Type} (p : Parser α) : Parser α := fun i =>
  match p i with
  | .ok x => .ok x
  | .error .fuelOut => .error .fuelOut
  | .error (.syntaxErr r k) => .error (.failure r k)
  | .error (.failure r k) => .error (.failure r k)

/-- nom `recognize`: run `p` and return the consumed input slice. -/
def recognizeP {α : Type} (p : Parser α) : Parser (List Char) := fun i =>
  match p i with
  | .error e => .error e
  | .ok (r, _) => .ok (r, i.take (i.length - r.length))

/-- nom `many0` with explicit fuel: repeat `p` until it fails with a
backtrackable error, collect values.  A success without consumption is nom's
infinite-loop error (ErrorKind::Many0); hard failures and the fuel marker are
propagated, never caught. -/
def many0F {α : Type} (p : Parser α) : Nat → Parser (List α)
  | 0, _ => .error .fuelOut
  | f + 1, i =>
    match p i with
    | .error .fuelOut => .error .fuelOut
    | .error (.syntaxErr _ _) => .ok (i, [])
    | .ok (r, a) =>
      if r.length = i.length then .error (.syntaxErr i .many0K)
      else
        match many0F p f r with
        | .ok (r2, xs) => .ok (r2, a :: xs)
        | .error e => .error e
    | .error (.failure r k) => .error (.failure r k)

/-- nom `many1` with explicit fuel: `p` once, then as `many0`. -/
def many1F {α : Type} (p : Parser α) (f : Nat) : Parser (List α) := fun i =>
  match p i with
  | .error e => .error e
  | .ok (r, a) =>
    match many0F p f r with
    | .ok (r2, xs) => .ok (r2, a :: xs)
    | .error e => .error e

/-- nom `take_until` for a one-character pattern (the only use in the source,
`take_until("\"")`): everything before the first occurrence, which must
exist. -/
def takeUntilCh (c : Char) : Parser (List Char) := fun i =>
  let pre := i.takeWhile (fun c' => decide (c' ≠ c))
  if pre.length = i.length then .error (.syntaxErr i .takeUntilK)
  else .ok (i.drop pre.length, pre)

/-! ## The AST (src/types.rs)

`BlkSection`/`BlkProperty` are flattened into the constructors of `BlkEntry`
(their fields become constructor arguments) so that the tree is a single
nested inductive; `BlkBlock` and `BlkConfig` are kept as structures. -/

/-- The eight BLK type tags (enum BlkType in src/parsers/blk.rs). -/
inductive BlkType where
  | text | boolean | integer | real | point2 | point3 | point4 | color
  deriving DecidableEq, Repr

/-- enum BlkPropertyValue.  `f32` components are modelled by their source
tokens (see the header comment); `i32` by `Int` (range-checked at parse
time). -/
inductive BlkPropertyValue where
  | Text (s : List Char)
  | Boolean (b : Bool)
  | Integer (n : Int)
  | Real (t : List Char)
  | Vector2 (x y : List Char)
  | Vector3 (x y z : List Char)
  | Vector4 (x y z w : List Char)
  | Color (r g b a : Int)
  deriving DecidableEq, Repr

/-- enum BlkEntry; `Section` carries the fields of struct BlkSection and
`Property` those of struct BlkProperty. -/
inductive BlkEntry where
  | Section (name : List Char) (entries : List BlkEntry)
  | Property (key : List Char) (value : BlkPropertyValue)

/-- struct BlkBlock. -/
structure BlkBlock where
  entries : List BlkEntry

/-- struct BlkConfig. -/
structure BlkConfig where
  block : BlkBlock

/-! ## The parsers of src/parsers/blk.rs -/

/-- parse_blk_type: `alt` over the eight type tags, in source order. -/
def parse_blk_type : Parser BlkType :=
  altP (mapP (tagP ['t']) fun _ => .text)
    (altP (mapP (tagP ['b']) fun _ => .boolean)
      (altP (mapP (tagP ['i']) fun _ => .integer)
        (altP (mapP (tagP ['r']) fun _ => .real)
          (altP (mapP (tagP ['p', '2']) fun _ => .point2)
            (altP (mapP (tagP ['p', '3']) fun _ => .point3)
              (altP (mapP (tagP ['p', '4']) fun _ => .point4)
                (mapP (tagP ['c']) fun _ => .color)))))))

/-- newline_multiplatform: `alt((tag("\r\n"), tag("\n")))`. -/
def newline_multiplatform : Parser Unit :=
  mapP (altP (tagP ['\r', '\n']) (tagP ['\n'])) fun _ => ()

/-- The repeated chunk of parse_identifier: `alt((alpha1, digit1, tag("_")))`. -/
def identChunk : Parser (List Char) :=
  altP alpha1 (altP digit1 (tagP ['_']))

/-- parse_identifier: `recognize(many1(alt((alpha1, digit1, tag("_")))))`. -/
def parse_identifier : Parser (List Char) :=
  recognizeP (fun i => many1F identChunk (i.length + 1) i)

/-- One terminator of parse_separator: a newline or a semicolon. -/
def sepAtom : Parser Unit :=
  altP newline_multiplatform (mapP (charP ';') fun _ => ())

/-- parse_separator: `many1` of newline-or-semicolon. -/
def parse_separator : Parser Unit := fun i =>
  match many1F sepAtom (i.length + 1) i with
  | .error e => .error e
  | .ok (r, _) => .ok (r, ())

/-- parse_boolean: `true`/`yes` map to true, `false`/`no` to false. -/
def parse_boolean : Parser Bool :=
  altP
    (mapP (altP (tagP ['t', 'r', 'u', 'e']) (tagP ['y', 'e', 's'])) fun _ => true)
    (mapP (altP (tagP ['f', 'a', 'l', 's', 'e']) (tagP ['n', 'o'])) fun _ => false)

/-- Numeric value of a digit string (most significant first). -/
def natFromDigits (ds : List Char) : Nat :=
  ds.foldl (fun a c => a * 10 + (c.toNat - ('0').toNat)) 0

/-- The optional leading sign of an integer literal: `some true` for `+`,
`some false` for `-`, with the rest of the input. -/
def signSplit (i : Input) : Option Bool × Input :=
  match i with
  | c :: r => if c = '+' then (some true, r) else if c = '-' then (some false, r) else (none, i)
  | [] => (none, i)

/-- parse_integer: nom `character::complete::i32` — optional sign, one or more
digits, failing (not wrapping) when the value leaves the i32 range. -/
def parse_integer : Parser Int := fun i =>
  match digit1 (signSplit i).2 with
  | .error e => .error e
  | .ok (r, ds) =>
    match (signSplit i).1 with
    | some false =>
      if natFromDigits ds ≤ 2147483648 then .ok (r, -(natFromDigits ds : Int))
      else .error (.syntaxErr i .intRangeK)
    | _ =>
      if natFromDigits ds ≤ 2147483647 then .ok (r, (natFromDigits ds : Int))
      else .error (.syntaxErr i .intRangeK)

/-- Optional sign of a float literal. -/
def optSignP : Parser (Option Char) := optP (altP (charP '+') (charP '-'))

/-- Mantissa of nom's float grammar: digits with an optional `.` and optional
fraction digits, or `.` followed by digits. -/
def mantissaP : Parser Unit :=
  altP
    (bindP digit1 fun _ =>
      mapP (optP (bindP (charP '.') fun _ => optP digit1)) fun _ => ())
    (bindP (charP '.') fun _ => mapP digit1 fun _ => ())

/-- Optional exponent of nom's float grammar: `e`/`E`, optional sign, then
`cut(digit1)` — once `e`/`E` is consumed, missing exponent digits are a hard
failure that aborts the whole parse (nom's `cut`). -/
def expP : Parser Unit :=
  mapP (optP (bindP (altP (charP 'e') (charP 'E')) fun _ =>
    bindP optSignP fun _ => cutP digit1)) fun _ => ()

/-- nom `recognize_float`: the token of a decimal float literal. -/
def recognize_float : Parser (List Char) :=
  recognizeP (bindP optSignP fun _ => bindP mantissaP fun _ => expP)

/-- parse_real: nom `number::complete::float`, modelled as the consumed token
(see the header comment): a decimal float literal or the case-insensitive
exceptions nan/infinity/inf. -/
def parse_real : Parser (List Char) :=
  altP recognize_float
    (altP (tagNoCaseP ['n', 'a', 'n'])
      (altP (tagNoCaseP ['i', 'n', 'f', 'i', 'n', 'i', 't', 'y'])
        (tagNoCaseP ['i', 'n', 'f'])))

/-- parse_vector_delimiter: a comma then optional whitespace. -/
def parse_vector_delimiter : Parser Unit :=
  bindP (charP ',') fun _ => mapP multispace0 fun _ => ()

/-- parse_string: `delimited(char('"'), take_until("\""), char('"'))`. -/
def parse_string : Parser (List Char) :=
  bindP (charP '"') fun _ =>
  bindP (takeUntilCh '"') fun s =>
  mapP (charP '"') fun _ => s

/-- parse_property_value: dispatch on the type tag, as in the source. -/
def parse_property_value : BlkType → Parser BlkPropertyValue
  | .text => mapP parse_string fun s => .Text s
  | .boolean => mapP parse_boolean fun b => .Boolean b
  | .integer => mapP parse_integer fun n => .Integer n
  | .real => mapP parse_real fun t => .Real t
  | .point2 =>
    bindP parse_real fun x =>
    bindP parse_vector_delimiter fun _ =>
    mapP parse_real fun y => .Vector2 x y
  | .point3 =>
    bindP parse_real fun x => bindP parse_vector_delimiter fun _ =>
    bindP parse_real fun y => bindP parse_vector_delimiter fun _ =>
    mapP parse_real fun z => .Vector3 x y z
  | .point4 =>
    bindP parse_real fun x => bindP parse_vector_delimiter fun _ =>
    bindP parse_real fun y => bindP parse_vector_delimiter fun _ =>
    bindP parse_real fun z => bindP parse_vector_delimiter fun _ =>
    mapP parse_real fun w => .Vector4 x y z w
  | .color =>
    bindP parse_integer fun r => bindP parse_vector_delimiter fun _ =>
    bindP parse_integer fun g => bindP parse_vector_delimiter fun _ =>
    bindP parse_integer fun b => bindP parse_vector_delimiter fun _ =>
    mapP parse_integer fun a => .Color r g b a

/-- parse_property: `identifier ':' type '=' value`, built as in the source
from parse_identifier, `delimited(char(':'), parse_blk_type, char('='))` and
parse_property_value. -/
def parse_property : Parser BlkEntry :=
  bindP parse_identifier fun id =>
  bindP (charP ':') fun _ =>
  bindP parse_blk_type fun ty =>
  bindP (charP '=') fun _ =>
  mapP (parse_property_value ty) fun v => .Property id v

/-- parse_section, generic in the block parser (the grammar's recursion is
tied below in parse_blockF): `identifier '{' block '}'`. -/
def parse_sectionG (pb : Parser BlkBlock) : Parser BlkEntry :=
  bindP parse_identifier fun name =>
  bindP (charP '\x7b') fun _ =>
  bindP pb fun blk =>
  mapP (charP '\x7d') fun _ => .Section name blk.entries

/-- parse_entry, generic in the block parser:
`delimited(multispace0, alt((parse_section, parse_property)), parse_separator)`. -/
def parse_entryG (pb : Parser BlkBlock) : Parser BlkEntry :=
  bindP multispace0 fun _ =>
  bindP (altP (parse_sectionG pb) parse_property) fun e =>
  mapP parse_separator fun _ => e

/-- parse_block with fuel for the section recursion:
`terminated(many0(parse_entry), multispace0)`.  The `many0` fuel
`input.length + 1` can never run out because an entry always consumes input
(proved below). -/
def parse_blockF : Nat → Parser BlkBlock
  | 0, _ => .error .fuelOut
  | f + 1, i =>
    match many0F (parse_entryG (parse_blockF f)) (i.length + 1) i with
    | .error e => .error e
    | .ok (r, es) =>
      match multispace0 r with
      | .error e => .error e
      | .ok (r2, _) => .ok (r2, ⟨es⟩)

/-- parse_block at the proven-sufficient fuel bound. -/
def parse_block : Parser BlkBlock := fun i => parse_blockF (i.length + 1) i

/-- parse_config: `parse_block.map(|block| BlkConfig { block })`. -/
def parse_config : Parser BlkConfig := fun i =>
  match parse_block i with
  | .error e => .error e
  | .ok (r, b) => .ok (r, ⟨b⟩)

/-- parse_entry as a standalone parser (ties the recursion as parse_block
does). -/
def parse_entry : Parser BlkEntry := parse_entryG parse_block

/-- parse_section as a standalone parser. -/
def parse_section : Parser BlkEntry := parse_sectionG parse_block

/-! ## The serializer (stringify_config in src/types.rs) -/

/-- One indentation unit, the Rust `"    "` (4 spaces). -/
def spaces4 : List Char := [' ', ' ', ' ', ' ']

/-- `"    ".repeat(d)`: the indentation at recursion depth `d`. -/
def indentC (d : Nat) : List Char := (List.replicate d spaces4).flatten

/-- Decimal digit character for a value below 10. -/
def digitChar (n : Nat) : Char := Char.ofNat (('0').toNat + n)

/-- Decimal digits of a natural number (fuel-structured division loop). -/
def natCharsAux : Nat → Nat → List Char
  | 0, _ => []
  | f + 1, n => if n < 10 then [digitChar n] else natCharsAux f (n / 10) ++ [digitChar (n % 10)]

/-- Decimal rendering of a natural number. -/
def natChars (n : Nat) : List Char := natCharsAux (n + 1) n

/-- Rust `{}` rendering of an i32: optional minus sign, then digits. -/
def intChars : Int → List Char
  | .ofNat n => natChars n
  | .negSucc n => '-' :: natChars (n + 1)

/-- Components joined with `", "`, the Rust `"{}, {}"` format strings. -/
def joinComma : List (List Char) → List Char
  | [] => []
  | [x] => x
  | x :: y :: xs => x ++ [',', ' '] ++ joinComma (y :: xs)

/-- The `:tag=value` rendering of a property value, per the match in
stringify_config_inner. -/
def stringify_value : BlkPropertyValue → List Char
  | .Text s => [':', 't', '='] ++ ['"'] ++ s ++ ['"']
  | .Boolean b => [':', 'b', '='] ++ (if b then ['y', 'e', 's'] else ['n', 'o'])
  | .Integer n => [':', 'i', '='] ++ intChars n
  | .Real t => [':', 'r', '='] ++ t
  | .Vector2 x y => [':', 'p', '2', '='] ++ joinComma [x, y]
  | .Vector3 x y z => [':', 'p', '3', '='] ++ joinComma [x, y, z]
  | .Vector4 x y z w => [':', 'p', '4', '='] ++ joinComma [x, y, z, w]
  | .Color r g b a => [':', 'c', '='] ++ joinComma [intChars r, intChars g, intChars b, intChars a]

/-- stringify_config_inner folded over a list of entries: each entry at
recursion depth `d` is rendered as indentation, then the section or property,
sections recursing one level deeper (the Rust `recurse_step + 1`). -/
def stringify_entries : List BlkEntry → Nat → List Char
  | [], _ => []
  | .Property k v :: es, d =>
    indentC d ++ k ++ stringify_value v ++ ['\n'] ++ stringify_entries es d
  | .Section n inner :: es, d =>
    indentC d ++ n ++ ['\x7b', '\n'] ++ stringify_entries inner (d + 1) ++
      indentC d ++ ['\x7d', '\n'] ++ stringify_entries es d

/-- stringify_config: every top-level entry at depth 0.  The writer is
modelled as the produced character list (the Rust code returns the sink's
errors unchanged and adds none of its own). -/
def stringify_config (c : BlkConfig) : List Char :=
  stringify_entries c.block.entries 0


/-! ## Basic lemmas about the primitives -/

theorem tagGo_some (t : List Char) : ∀ (i r : Input), tagGo t i = some r ↔ i = t ++ r := by
  induction t with
  | nil => intro i r; simp [tagGo, eq_comm]
  | cons c ts ih =>
    intro i r
    cases i with
    | nil => simp [tagGo]
    | cons d ds =>
      simp only [tagGo]
      by_cases h : d = c
      · subst h; simp [ih]
      · simp [h]

theorem takeWhile_append_all {p : Char → Bool} {l : List Char} (h : ∀ c ∈ l, p c = true) :
    ∀ r : List Char, (l ++ r).takeWhile p = l ++ r.takeWhile p := by
  induction l with
  | nil => intro r; simp
  | cons c cs ih =>
    intro r
    have hc : p c = true := h c (by simp)
    simp only [List.cons_append, List.takeWhile_cons, hc, if_true]
    rw [ih (fun x hx => h x (by simp [hx]))]

theorem dropWhile_append_all {p : Char → Bool} {l : List Char} (h : ∀ c ∈ l, p c = true) :
    ∀ r : List Char, (l ++ r).dropWhile p = r.dropWhile p := by
  induction l with
  | nil => intro r; simp
  | cons c cs ih =>
    intro r
    have hc : p c = true := h c (by simp)
    simp only [List.cons_append, List.dropWhile_cons, hc, if_true]
    exact ih (fun x hx => h x (by simp [hx])) r

/-- Every character kept by takeWhile satisfies the predicate. -/
theorem mem_takeWhile_sat {p : Char → Bool} : ∀ {l : List Char} {c : Char},
    c ∈ l.takeWhile p → p c = true := by
  intro l
  induction l with
  | nil => intro c h; simp at h
  | cons d ds ih =>
    intro c h
    by_cases hd : p d
    · simp only [List.takeWhile_cons, hd, if_true] at h
      rcases List.mem_cons.mp h with h1 | h2
      · subst h1; exact hd
      · exact ih h2
  
    · simp [List.takeWhile_cons, hd] at h

/-- A parser that only ever returns a suffix of its input. -/
def Sfx {α : Type} (P : Parser α) : Prop :=
  ∀ i r a, P i = .ok (r, a) → r <:+ i

theorem sfx_takeWhile1 (p : Char → Bool) (k : ErrKind) : Sfx (takeWhile1 p k) := by
  intro i r a h
  unfold takeWhile1 at h
  split at h
  · exact absurd h (by simp)
  · rw [Except.ok.injEq, Prod.mk.injEq] at h
    rcases h with ⟨h1, _⟩
    rw [← h1]
    exact List.dropWhile_suffix p

theorem sfx_multispace0 : Sfx multispace0 := by
  intro i r a h
  unfold multispace0 at h
  rw [Except.ok.injEq, Prod.mk.injEq] at h
  rw [← h.1]
  exact List.dropWhile_suffix isSpaceC

theorem sfx_charP (c : Char) : Sfx (charP c) := by
  intro i r a h
  unfold charP at h
  match i with
  | [] => exact absurd h (by simp)
  | c' :: cs =>
    simp only at h
    split at h
    · rw [Except.ok.injEq, Prod.mk.injEq] at h
      rw [← h.1]
      exact ⟨[c'], rfl⟩
    · exact absurd h (by simp)

theorem sfx_tagP (t : List Char) : Sfx (tagP t) := by
  intro i r a h
  unfold tagP at h
  split at h
  case _ r' heq =>
    rw [Except.ok.injEq, Prod.mk.injEq] at h
    have := (tagGo_some t i r').mp heq
    rw [← h.1, this]
    exact List.suffix_append t r'
  case _ => exact absurd h (by simp)

theorem tagNoCaseGo_sfx (t : List Char) : ∀ (i r : Input), tagNoCaseGo t i = some r → r <:+ i := by
  induction t with
  | nil => intro i r h; simp only [tagNoCaseGo] at h; rw [Option.some.injEq] at h; rw [h]
  | cons c ts ih =>
    intro i r h
    cases i with
    | nil => simp [tagNoCaseGo] at h
    | cons d ds =>
      simp only [tagNoCaseGo] at h
      split at h
      · exact (ih ds r h).trans ⟨[d], rfl⟩
      · simp at h

theorem sfx_tagNoCaseP (t : List Char) : Sfx (tagNoCaseP t) := by
  intro i r a h
  unfold tagNoCaseP at h
  split at h
  case _ r' heq =>
    rw [Except.ok.injEq, Prod.mk.injEq] at h
    rw [← h.1]
    exact tagNoCaseGo_sfx t i r' heq
  case _ => exact absurd h (by simp)

theorem sfx_altP {α : Type} {p q : Parser α} (hp : Sfx p) (hq : Sfx q) : Sfx (altP p q) := by
  intro i r a h
  unfold altP at h
  split at h
  case h_1 x heq =>
    simp only [Except.ok.injEq] at h
    subst h
    exact hp i r a heq
  case h_2 => exact absurd h (by simp)
  case h_3 => exact hq i r a h
  case h_4 => exact absurd h (by simp)

theorem sfx_optP {α : Type} {p : Parser α} (hp : Sfx p) : Sfx (optP p) := by
  intro i r a h
  unfold optP at h
  split at h
  case _ r' a' heq =>
    rw [Except.ok.injEq, Prod.mk.injEq] at h
    rw [← h.1]
    exact hp i r' a' heq
  case _ => exact absurd h (by simp)
  case _ =>
    rw [Except.ok.injEq, Prod.mk.injEq] at h
    rw [← h.1]
  case _ => exact absurd h (by simp)

theorem sfx_bindP {α β : Type} {p : Parser α} {f : α → Parser β}
    (hp : Sfx p) (hf : ∀ a, Sfx (f a)) : Sfx (bindP p f) := by
  intro i r b h
  unfold bindP at h
  split at h
  case _ => exact absurd h (by simp)
  case _ r' a heq =>
    exact (hf a r' r b h).trans (hp i r' a (by rw [heq]))

theorem sfx_mapP {α β : Type} {p : Parser α} (f : α → β) (hp : Sfx p) : Sfx (mapP p f) := by
  intro i r b h
  unfold mapP at h
  split at h
  case _ => exact absurd h (by simp)
  case _ r' a heq =>
    rw [Except.ok.injEq, Prod.mk.injEq] at h
    rw [← h.1]
    exact hp i r' a (by rw [heq])

theorem sfx_pureP {α : Type} (a : α) : Sfx (pureP a) := by
  intro i r b h
  unfold pureP at h
  rw [Except.ok.injEq, Prod.mk.injEq] at h
  rw [← h.1]

theorem sfx_recognizeP {α : Type} {p : Parser α} (hp : Sfx p) : Sfx (recognizeP p) := by
  intro i r b h
  unfold recognizeP at h
  split at h
  case _ => exact absurd h (by simp)
  case _ r' a heq =>
    rw [Except.ok.injEq, Prod.mk.injEq] at h
    rw [← h.1]
    exact hp i r' a (by rw [heq])

theorem sfx_many0F {α : Type} {p : Parser α} (hp : Sfx p) : ∀ f, Sfx (many0F p f) := by
  intro f
  induction f with
  | zero => intro i r a h; simp [many0F] at h
  | succ f ih =>
    intro i r a h
    simp only [many0F] at h
    split at h
    · exact absurd h (by simp)
    · rw [Except.ok.injEq, Prod.mk.injEq] at h
      rw [← h.1]
    case _ r1 a1 heq =>
      split at h
      · exact absurd h (by simp)
      · split at h
        case _ r2 xs heq2 =>
          rw [Except.ok.injEq, Prod.mk.injEq] at h
          rw [← h.1]
          exact (ih r1 r2 xs (by rw [heq2])).trans (hp i r1 a1 (by rw [heq]))
        case _ => exact absurd h (by simp)
    case _ => exact absurd h (by simp)

theorem sfx_many1F {α : Type} {p : Parser α} (hp : Sfx p) (f : Nat) : Sfx (many1F p f) := by
  intro i r a h
  unfold many1F at h
  split at h
  · exact absurd h (by simp)
  case _ r1 a1 heq =>
    split at h
    case _ r2 xs heq2 =>
      rw [Except.ok.injEq, Prod.mk.injEq] at h
      rw [← h.1]
      exact (sfx_many0F hp f r1 r2 xs (by rw [heq2])).trans (hp i r1 a1 (by rw [heq]))
    case _ => exact absurd h (by simp)

theorem sfx_takeUntilCh (c : Char) : Sfx (takeUntilCh c) := by
  intro i r a h
  simp only [takeUntilCh] at h
  split at h
  · exact absurd h (by simp)
  · rw [Except.ok.injEq, Prod.mk.injEq] at h
    rw [← h.1]
    exact List.drop_suffix _ i

theorem sfx_alpha1 : Sfx alpha1 := sfx_takeWhile1 _ _
theorem sfx_digit1 : Sfx digit1 := sfx_takeWhile1 _ _

theorem sfx_identChunk : Sfx identChunk :=
  sfx_altP sfx_alpha1 (sfx_altP sfx_digit1 (sfx_tagP _))

theorem sfx_parse_identifier : Sfx parse_identifier := by
  unfold parse_identifier
  exact sfx_recognizeP (fun j r a hh => sfx_many1F sfx_identChunk (j.length + 1) j r a hh)

theorem sfx_newline_multiplatform : Sfx newline_multiplatform :=
  sfx_mapP _ (sfx_altP (sfx_tagP _) (sfx_tagP _))

theorem sfx_sepAtom : Sfx sepAtom :=
  sfx_altP sfx_newline_multiplatform (sfx_mapP _ (sfx_charP _))

theorem sfx_parse_separator : Sfx parse_separator := by
  intro i r a h
  unfold parse_separator at h
  split at h
  next => exact absurd h (by simp)
  next r' u heq =>
    simp only [Except.ok.injEq, Prod.mk.injEq] at h
    rw [← h.1]
    exact sfx_many1F sfx_sepAtom (i.length + 1) i r' u heq

theorem sfx_parse_boolean : Sfx parse_boolean :=
  sfx_altP (sfx_mapP _ (sfx_altP (sfx_tagP _) (sfx_tagP _)))
    (sfx_mapP _ (sfx_altP (sfx_tagP _) (sfx_tagP _)))



theorem signSplit_sfx (i : Input) : (signSplit i).2 <:+ i := by
  unfold signSplit
  match i with
  | [] => simp
  | c :: r =>
    simp only
    by_cases h1 : c = '+'
    · simp [h1]
    · by_cases h2 : c = '-'
      · simp [h1, h2]
      · simp [h1, h2]

theorem sfx_parse_integer : Sfx parse_integer := by
  intro i r a h
  unfold parse_integer at h
  split at h
  · exact absurd h (by simp)
  case _ r' ds heq =>
    have hr : r' <:+ i := (sfx_digit1 _ r' ds (by rw [heq])).trans (signSplit_sfx i)
    split at h
    · split at h
      · rw [Except.ok.injEq, Prod.mk.injEq] at h
        rw [← h.1]; exact hr
      · exact absurd h (by simp)
    · split at h
      · rw [Except.ok.injEq, Prod.mk.injEq] at h
        rw [← h.1]; exact hr
      · exact absurd h (by simp)

theorem sfx_optSignP : Sfx optSignP := sfx_optP (sfx_altP (sfx_charP _) (sfx_charP _))

theorem sfx_mantissaP : Sfx mantissaP :=
  sfx_altP
    (sfx_bindP sfx_digit1 fun _ =>
      sfx_mapP _ (sfx_optP (sfx_bindP (sfx_charP _) fun _ => sfx_optP sfx_digit1)))
    (sfx_bindP (sfx_charP _) fun _ => sfx_mapP _ sfx_digit1)

theorem sfx_cutP {α : Type} {p : Parser α} (hp : Sfx p) : Sfx (cutP p) := by
  intro i r a h
  unfold cutP at h
  split at h
  case h_1 x heq =>
    simp only [Except.ok.injEq] at h
    subst h
    exact hp i r a heq
  case h_2 => exact absurd h (by simp)
  case h_3 => exact absurd h (by simp)
  case h_4 => exact absurd h (by simp)

theorem sfx_expP : Sfx expP :=
  sfx_mapP _ (sfx_optP (sfx_bindP (sfx_altP (sfx_charP _) (sfx_charP _)) fun _ =>
    sfx_bindP sfx_optSignP fun _ => sfx_cutP sfx_digit1))

theorem sfx_recognize_float : Sfx recognize_float :=
  sfx_recognizeP (sfx_bindP sfx_optSignP fun _ => sfx_bindP sfx_mantissaP fun _ => sfx_expP)

theorem sfx_parse_real : Sfx parse_real :=
  sfx_altP sfx_recognize_float
    (sfx_altP (sfx_tagNoCaseP _) (sfx_altP (sfx_tagNoCaseP _) (sfx_tagNoCaseP _)))

theorem sfx_parse_vector_delimiter : Sfx parse_vector_delimiter :=
  sfx_bindP (sfx_charP _) fun _ => sfx_mapP _ sfx_multispace0

theorem sfx_parse_string : Sfx parse_string :=
  sfx_bindP (sfx_charP _) fun _ => sfx_bindP (sfx_takeUntilCh _) fun _ =>
    sfx_mapP _ (sfx_charP _)

theorem sfx_parse_blk_type : Sfx parse_blk_type := by
  unfold parse_blk_type
  exact sfx_altP (sfx_mapP _ (sfx_tagP _)) (sfx_altP (sfx_mapP _ (sfx_tagP _))
    (sfx_altP (sfx_mapP _ (sfx_tagP _)) (sfx_altP (sfx_mapP _ (sfx_tagP _))
      (sfx_altP (sfx_mapP _ (sfx_tagP _)) (sfx_altP (sfx_mapP _ (sfx_tagP _))
        (sfx_altP (sfx_mapP _ (sfx_tagP _)) (sfx_mapP _ (sfx_tagP _))))))))

theorem sfx_parse_property_value (ty : BlkType) : Sfx (parse_property_value ty) := by
  cases ty <;> unfold parse_property_value
  · exact sfx_mapP _ sfx_parse_string
  · exact sfx_mapP _ sfx_parse_boolean
  · exact sfx_mapP _ sfx_parse_integer
  · exact sfx_mapP _ sfx_parse_real
  · exact sfx_bindP sfx_parse_real fun _ => sfx_bindP sfx_parse_vector_delimiter fun _ =>
      sfx_mapP _ sfx_parse_real
  · exact sfx_bindP sfx_parse_real fun _ => sfx_bindP sfx_parse_vector_delimiter fun _ =>
      sfx_bindP sfx_parse_real fun _ => sfx_bindP sfx_parse_vector_delimiter fun _ =>
      sfx_mapP _ sfx_parse_real
  · exact sfx_bindP sfx_parse_real fun _ => sfx_bindP sfx_parse_vector_delimiter fun _ =>
      sfx_bindP sfx_parse_real fun _ => sfx_bindP sfx_parse_vector_delimiter fun _ =>
      sfx_bindP sfx_parse_real fun _ => sfx_bindP sfx_parse_vector_delimiter fun _ =>
      sfx_mapP _ sfx_parse_real
  · exact sfx_bindP sfx_parse_integer fun _ => sfx_bindP sfx_parse_vector_delimiter fun _ =>
      sfx_bindP sfx_parse_integer fun _ => sfx_bindP sfx_parse_vector_delimiter fun _ =>
      sfx_bindP sfx_parse_integer fun _ => sfx_bindP sfx_parse_vector_delimiter fun _ =>
      sfx_mapP _ sfx_parse_integer

theorem sfx_parse_property : Sfx parse_property :=
  sfx_bindP sfx_parse_identifier fun _ => sfx_bindP (sfx_charP _) fun _ =>
    sfx_bindP sfx_parse_blk_type fun ty => sfx_bindP (sfx_charP _) fun _ =>
      sfx_mapP _ (sfx_parse_property_value ty)

theorem sfx_parse_sectionG {pb : Parser BlkBlock} (hpb : Sfx pb) : Sfx (parse_sectionG pb) :=
  sfx_bindP sfx_parse_identifier fun _ => sfx_bindP (sfx_charP _) fun _ =>
    sfx_bindP hpb fun _ => sfx_mapP _ (sfx_charP _)

theorem sfx_parse_entryG {pb : Parser BlkBlock} (hpb : Sfx pb) : Sfx (parse_entryG pb) :=
  sfx_bindP sfx_multispace0 fun _ =>
    sfx_bindP (sfx_altP (sfx_parse_sectionG hpb) sfx_parse_property) fun _ =>
      sfx_mapP _ sfx_parse_separator

theorem sfx_parse_blockF : ∀ f, Sfx (parse_blockF f) := by
  intro f
  induction f with
  | zero => intro i r a h; simp [parse_blockF] at h
  | succ f ih =>
    intro i r a h
    simp only [parse_blockF] at h
    split at h
    · exact absurd h (by simp)
    case _ r1 es heq =>
      simp only [multispace0, Except.ok.injEq, Prod.mk.injEq] at h
      rw [← h.1]
      exact (List.dropWhile_suffix isSpaceC).trans
        (sfx_many0F (sfx_parse_entryG ih) _ i r1 es (by rw [heq]))

theorem sfx_parse_block : Sfx parse_block := fun i => sfx_parse_blockF _ i

theorem sfx_parse_config : Sfx parse_config := by
  intro i r a h
  unfold parse_config at h
  split at h
  · exact absurd h (by simp)
  case _ r' b heq =>
    rw [Except.ok.injEq, Prod.mk.injEq] at h
    rw [← h.1]
    exact sfx_parse_block i r' b (by rw [heq])

theorem sfx_parse_entry : Sfx parse_entry := sfx_parse_entryG sfx_parse_block


/-! ## Consumption and totality of the repetition combinators -/

theorem suffix_length_le {r i : Input} (h : r <:+ i) : r.length ≤ i.length :=
  List.IsSuffix.length_le h

/-- A parser that consumes at least one character whenever it succeeds. -/
def Consumes {α : Type} (P : Parser α) : Prop :=
  ∀ i r a, P i = .ok (r, a) → r.length < i.length

/-- A parser that never reports fuel exhaustion. -/
def NoFuel {α : Type} (P : Parser α) : Prop :=
  ∀ i, P i ≠ .error .fuelOut

/-- A parser that never raises a hard failure (it contains no `cut`). -/
def NoHard {α : Type} (P : Parser α) : Prop :=
  ∀ i r k, P i ≠ .error (.failure r k)

theorem noHard_takeWhile1 (p : Char → Bool) (k : ErrKind) : NoHard (takeWhile1 p k) := by
  intro i r kk h
  unfold takeWhile1 at h
  split at h <;> simp at h

theorem noHard_charP (c : Char) : NoHard (charP c) := by
  intro i r kk h
  unfold charP at h
  split at h
  · simp at h
  · split at h <;> simp at h

theorem noHard_tagP (t : List Char) : NoHard (tagP t) := by
  intro i r kk h
  unfold tagP at h
  split at h <;> simp at h

theorem noHard_mapP {α β : Type} {p : Parser α} (f : α → β) (hp : NoHard p) :
    NoHard (mapP p f) := by
  intro i r kk h
  unfold mapP at h
  split at h
  case h_1 e heq =>
    simp only [Except.error.injEq] at h
    rw [h] at heq
    exact hp i r kk heq
  case h_2 => simp at h

theorem noHard_altP {α : Type} {p q : Parser α} (hp : NoHard p) (hq : NoHard q) :
    NoHard (altP p q) := by
  intro i r kk h
  unfold altP at h
  split at h
  · simp at h
  · simp at h
  case h_3 => exact hq i r kk h
  case h_4 r2 k2 heq => exact hp i r2 k2 heq

theorem noHard_sepAtom : NoHard sepAtom :=
  noHard_altP (noHard_mapP _ (noHard_altP (noHard_tagP _) (noHard_tagP _)))
    (noHard_mapP _ (noHard_charP _))

theorem noHard_identChunk : NoHard identChunk :=
  noHard_altP (noHard_takeWhile1 _ _)
    (noHard_altP (noHard_takeWhile1 _ _) (noHard_tagP _))

theorem consumes_tagP {t : List Char} (ht : t ≠ []) : Consumes (tagP t) := by
  intro i r a h
  unfold tagP at h
  split at h
  case h_1 r' heq =>
    simp only [Except.ok.injEq, Prod.mk.injEq] at h
    rw [← h.1]
    rw [(tagGo_some t i r').mp heq, List.length_append]
    cases t with
    | nil => exact absurd rfl ht
    | cons c cs => simp
  case h_2 => exact absurd h (by simp)

theorem consumes_charP (c : Char) : Consumes (charP c) := by
  intro i r a h
  unfold charP at h
  match i with
  | [] => exact absurd h (by simp)
  | c' :: cs =>
    simp only at h
    split at h
    · simp only [Except.ok.injEq, Prod.mk.injEq] at h
      rw [← h.1]; simp
    · exact absurd h (by simp)

theorem consumes_newline_multiplatform : Consumes newline_multiplatform := by
  intro i r a h
  unfold newline_multiplatform mapP at h
  split at h
  · exact absurd h (by simp)
  case h_2 r' a' heq =>
    simp only [Except.ok.injEq, Prod.mk.injEq] at h
    rw [← h.1]
    unfold altP at heq
    split at heq
    case h_1 x hx =>
      simp only [Except.ok.injEq] at heq
      rw [heq] at hx
      exact consumes_tagP (by simp) i r' a' hx
    case h_2 => exact absurd heq (by simp)
    case h_3 => exact consumes_tagP (by simp) i r' a' heq
    case h_4 => exact absurd heq (by simp)

theorem consumes_sepAtom : Consumes sepAtom := by
  intro i r a h
  unfold sepAtom altP at h
  split at h
  case h_1 x hx =>
    simp only [Except.ok.injEq] at h
    rw [h] at hx
    exact consumes_newline_multiplatform i r a hx
  case h_2 => exact absurd h (by simp)
  case h_3 =>
    unfold mapP at h
    split at h
    · exact absurd h (by simp)
    case h_2 r' a' heq =>
      simp only [Except.ok.injEq, Prod.mk.injEq] at h
      rw [← h.1]
      exact consumes_charP ';' i r' a' heq
  case h_4 => exact absurd h (by simp)

theorem noFuel_tagP (t : List Char) : NoFuel (tagP t) := by
  intro i h
  unfold tagP at h
  split at h <;> simp at h

theorem noFuel_charP (c : Char) : NoFuel (charP c) := by
  intro i h
  unfold charP at h
  match i with
  | [] => simp at h
  | c' :: cs =>
    simp only at h
    split at h <;> simp at h

theorem noFuel_mapP {α β : Type} {p : Parser α} (f : α → β) (hp : NoFuel p) :
    NoFuel (mapP p f) := by
  intro i h
  unfold mapP at h
  split at h
  case h_1 e heq =>
    simp only [Except.error.injEq] at h
    rw [h] at heq
    exact hp i heq
  case h_2 => simp at h

theorem noFuel_altP {α : Type} {p q : Parser α} (hp : NoFuel p) (hq : NoFuel q) :
    NoFuel (altP p q) := by
  intro i h
  unfold altP at h
  split at h
  · simp at h
  case h_2 heq => exact hp i heq
  case h_3 => exact hq i h
  case h_4 => simp at h

theorem noFuel_sepAtom : NoFuel sepAtom :=
  noFuel_altP (noFuel_mapP _ (noFuel_altP (noFuel_tagP _) (noFuel_tagP _)))
    (noFuel_mapP _ (noFuel_charP _))

/-- With a consuming, fuel-free inner parser and fuel exceeding the input
length, `many0F` always succeeds (the loop stops at the first failure). -/
theorem many0F_total {α : Type} {p : Parser α} (hc : Consumes p) (hn : NoFuel p)
    (hh : NoHard p) :
    ∀ (f : Nat) (i : Input), i.length < f → ∃ r xs, many0F p f i = .ok (r, xs) := by
  intro f
  induction f with
  | zero => intro i h; omega
  | succ f ih =>
    intro i hlen
    simp only [many0F]
    cases hp : p i with
    | error e =>
      cases e with
      | fuelOut => exact absurd hp (hn i)
      | syntaxErr rest k => exact ⟨i, [], rfl⟩
      | failure rest k => exact absurd hp (hh i rest k)
    | ok x =>
      obtain ⟨r, a⟩ := x
      have hcons := hc i r a hp
      have hne : ¬ (r.length = i.length) := by omega
      simp only [hne, if_false]
      obtain ⟨r2, xs, h2⟩ := ih r (by omega)
      exact ⟨r2, a :: xs, by rw [h2]⟩

theorem tagP_ok_iff (t : List Char) (i r : Input) (v : List Char) :
    tagP t i = .ok (r, v) ↔ (i = t ++ r ∧ v = t) := by
  unfold tagP
  constructor
  · intro h
    split at h
    case h_1 r' heq =>
      simp only [Except.ok.injEq, Prod.mk.injEq] at h
      exact ⟨by rw [← h.1]; exact (tagGo_some t i r').mp heq, h.2.symm⟩
    case h_2 => exact absurd h (by simp)
  · rintro ⟨h1, h2⟩
    have : tagGo t i = some r := (tagGo_some t i r).mpr h1
    rw [this, h2]

theorem sepAtom_ok_iff (i r : Input) :
    sepAtom i = .ok (r, ()) ↔ (i = '\r' :: '\n' :: r ∨ i = '\n' :: r ∨ i = ';' :: r) := by
  constructor
  · intro h
    unfold sepAtom altP at h
    split at h
    case h_1 x hx =>
      simp only [Except.ok.injEq] at h
      rw [h] at hx
      unfold newline_multiplatform mapP altP at hx
      split at hx
      · exact absurd hx (by simp)
      case h_2 r' a' heq =>
        simp only [Except.ok.injEq, Prod.mk.injEq] at hx
        split at heq
        case h_1 y hy =>
          simp only [Except.ok.injEq] at heq
          rw [heq] at hy
          rw [tagP_ok_iff] at hy
          exact Or.inl (by rw [hy.1, hx.1]; rfl)
        case h_2 => exact absurd heq (by simp)
        case h_3 =>
          rw [tagP_ok_iff] at heq
          exact Or.inr (Or.inl (by rw [heq.1, hx.1]; rfl))
        case h_4 => exact absurd heq (by simp)
    case h_2 => exact absurd h (by simp)
    case h_3 =>
      unfold mapP at h
      split at h
      · exact absurd h (by simp)
      case h_2 r' a' heq =>
        simp only [Except.ok.injEq, Prod.mk.injEq] at h
        unfold charP at heq
        match i with
        | [] => exact absurd heq (by simp)
        | c :: cs =>
          simp only at heq
          split at heq
          case isTrue hc =>
            simp only [Except.ok.injEq, Prod.mk.injEq] at heq
            exact Or.inr (Or.inr (by rw [heq.1, h.1, hc]))
          case isFalse => exact absurd heq (by simp)
    case h_4 => exact absurd h (by simp)
  · intro h
    rcases h with h | h | h <;> subst h <;> rfl

theorem consumes_parse_separator : Consumes parse_separator := by
  intro i r a h
  unfold parse_separator at h
  split at h
  next => exact absurd h (by simp)
  next r' u heq =>
    simp only [Except.ok.injEq, Prod.mk.injEq] at h
    rw [← h.1]
    unfold many1F at heq
    split at heq
    · exact absurd heq (by simp)
    case h_2 r1 a1 hp =>
      split at heq
      case h_1 r2 xs h2 =>
        simp only [Except.ok.injEq, Prod.mk.injEq] at heq
        have hs : r2 <:+ r1 := sfx_many0F sfx_sepAtom _ r1 r2 xs h2
        have := suffix_length_le hs
        have := consumes_sepAtom i r1 a1 hp
        rw [← heq.1]
        omega
      case h_2 => exact absurd heq (by simp)

theorem parse_separator_ok_iff (i : Input) :
    (∃ r, parse_separator i = .ok (r, ())) ↔
      ((∃ t, i = ';' :: t) ∨ (∃ t, i = '\n' :: t) ∨ (∃ t, i = '\r' :: '\n' :: t)) := by
  constructor
  · intro ⟨r, h⟩
    unfold parse_separator at h
    split at h
    · exact absurd h (by simp)
    case h_2 r' u heq =>
      unfold many1F at heq
      split at heq
      · exact absurd heq (by simp)
      case h_2 r1 a1 hp =>
        obtain h1 := (sepAtom_ok_iff i r1).mp (by rw [hp])
        rcases h1 with h1 | h1 | h1
        · exact Or.inr (Or.inr ⟨r1, h1⟩)
        · exact Or.inr (Or.inl ⟨r1, h1⟩)
        · exact Or.inl ⟨r1, h1⟩
  · intro h
    have hatom : ∃ r1, sepAtom i = .ok (r1, ()) := by
      rcases h with ⟨t, ht⟩ | ⟨t, ht⟩ | ⟨t, ht⟩ <;> subst ht
      · exact ⟨t, (sepAtom_ok_iff _ t).mpr (Or.inr (Or.inr rfl))⟩
      · exact ⟨t, (sepAtom_ok_iff _ t).mpr (Or.inr (Or.inl rfl))⟩
      · exact ⟨t, (sepAtom_ok_iff _ t).mpr (Or.inl rfl)⟩
    obtain ⟨r1, h1⟩ := hatom
    have hlt : r1.length < i.length := consumes_sepAtom i r1 () h1
    obtain ⟨r2, xs, h2⟩ := many0F_total consumes_sepAtom noFuel_sepAtom noHard_sepAtom
      (i.length + 1) r1 (by omega)
    refine ⟨r2, ?_⟩
    unfold parse_separator many1F
    rw [h1]
    simp only [h2]

theorem consumes_parse_entryG {pb : Parser BlkBlock} (hpb : Sfx pb) :
    Consumes (parse_entryG pb) := by
  intro i r a h
  simp only [parse_entryG, bindP, mapP] at h
  split at h
  · exact absurd h (by simp)
  case h_2 i1 w1 heq1 =>
    split at h
    · exact absurd h (by simp)
    case h_2 i2 e heq2 =>
      split at h
      · exact absurd h (by simp)
      case h_2 i3 u heq3 =>
        simp only [Except.ok.injEq, Prod.mk.injEq] at h
        have l1 : i1.length ≤ i.length :=
          suffix_length_le (sfx_multispace0 i i1 w1 heq1)
        have l2 : i2.length ≤ i1.length :=
          suffix_length_le
            (sfx_altP (sfx_parse_sectionG hpb) sfx_parse_property i1 i2 e heq2)
        have l3 : i3.length < i2.length := consumes_parse_separator i2 i3 u heq3
        rw [← h.1]
        omega

theorem consumes_parse_entry : Consumes parse_entry :=
  consumes_parse_entryG sfx_parse_block

/-! ## Claim C9: separator flexibility -/

/-- C9: an entry terminator is one or more terminators drawn from CRLF, LF and
semicolon in any mixture: parse_separator succeeds exactly when the input
starts with one of the three terminators, a mixture such as the three-character
input semicolon-LF-semicolon is consumed as a single separator, each of the
three alone terminates an entry, and an entry with no terminator fails. -/
theorem separator_flexibility :
    (∀ i : Input, (∃ r, parse_separator i = .ok (r, ())) ↔
        ((∃ t, i = ';' :: t) ∨ (∃ t, i = '\n' :: t) ∨ (∃ t, i = '\r' :: '\n' :: t))) ∧
    parse_separator ((";\n;").toList) = .ok ([], ()) ∧
    (∃ e, parse_entry (("a:i=1").toList) = .error e) ∧
    parse_entry (("a:i=1;").toList) = .ok ([], .Property (['a']) (.Integer 1)) ∧
    parse_entry (("a:i=1\n").toList) = .ok ([], .Property (['a']) (.Integer 1)) ∧
    parse_entry (("a:i=1\r\n").toList) = .ok ([], .Property (['a']) (.Integer 1)) ∧
    parse_entry (("a:i=1;\n;").toList) = .ok ([], .Property (['a']) (.Integer 1)) :=
  ⟨parse_separator_ok_iff, rfl, ⟨.syntaxErr [] .charK, rfl⟩, rfl, rfl, rfl, rfl⟩

/-! ## Claim C2 -/

/-- C2 counterexample: on the malformed input `a:t="x` (unterminated quoted
string) parse_config does not return an error: it returns Ok with the entire
input as leftover and an empty configuration. -/
theorem parse_config_malformed_ok_not_error :
    parse_config (("a:t=\"x").toList) = .ok ((("a:t=\"x").toList), ⟨⟨[]⟩⟩) ∧
    ∀ e, parse_config (("a:t=\"x").toList) ≠ .error e := by
  refine ⟨rfl, ?_⟩
  intro e h
  rw [(rfl : parse_config (("a:t=\"x").toList) = .ok ((("a:t=\"x").toList), ⟨⟨[]⟩⟩))] at h
  exact Except.noConfusion h

/-- C2 amended: an unterminated quoted string, a missing closing brace and an
unknown type tag each make parse_entry abort with a SyntaxError value (no
panic, no partial entry), while the top-level parse_config stops before the
malformed entry and returns it as leftover with no partial AST from it. -/
theorem malformed_entry_syntax_error :
    parse_entry (("a:t=\"x;").toList) = .error (.syntaxErr (("x;").toList) .takeUntilK) ∧
    parse_entry (("s\x7ba:i=1;").toList) = .error (.syntaxErr (("\x7ba:i=1;").toList) .charK) ∧
    parse_entry (("a:z=1;").toList) = .error (.syntaxErr (("z=1;").toList) .tagK) ∧
    parse_config (("a:t=\"x;").toList) = .ok ((("a:t=\"x;").toList), ⟨⟨[]⟩⟩) ∧
    parse_config (("s\x7ba:i=1;").toList) = .ok ((("s\x7ba:i=1;").toList), ⟨⟨[]⟩⟩) ∧
    parse_config (("a:z=1;").toList) = .ok ((("a:z=1;").toList), ⟨⟨[]⟩⟩) :=
  ⟨rfl, rfl, rfl, rfl, rfl, rfl⟩

/-! ## Elimination helpers for the combinators -/

theorem altP_ok_elim {α : Type} {p q : Parser α} {i : Input} {x : Input × α}
    (h : altP p q i = .ok x) : p i = .ok x ∨ q i = .ok x := by
  unfold altP at h
  split at h
  case h_1 y hy => rw [h] at hy; exact Or.inl hy
  case h_2 => exact absurd h (by simp)
  case h_3 => exact Or.inr h
  case h_4 => exact absurd h (by simp)

theorem mapP_ok_elim {α β : Type} {p : Parser α} {f : α → β} {i r : Input} {b : β}
    (h : mapP p f i = .ok (r, b)) : ∃ a, p i = .ok (r, a) ∧ b = f a := by
  unfold mapP at h
  split at h
  · exact absurd h (by simp)
  case h_2 r' a heq =>
    simp only [Except.ok.injEq, Prod.mk.injEq] at h
    exact ⟨a, by rw [← h.1]; exact heq, h.2.symm⟩

theorem bindP_ok_elim {α β : Type} {p : Parser α} {f : α → Parser β} {i : Input}
    {x : Input × β} (h : bindP p f i = .ok x) :
    ∃ r1 a, p i = .ok (r1, a) ∧ f a r1 = .ok x := by
  unfold bindP at h
  split at h
  · exact absurd h (by simp)
  case h_2 r1 a heq => exact ⟨r1, a, heq, h⟩

/-! ## Claim C6: boolean aliasing -/

theorem parse_boolean_ok_iff (i r : Input) (b : Bool) :
    parse_boolean i = .ok (r, b) ↔
      ((b = true ∧ (i = ['t', 'r', 'u', 'e'] ++ r ∨ i = ['y', 'e', 's'] ++ r)) ∨
       (b = false ∧ (i = ['f', 'a', 'l', 's', 'e'] ++ r ∨ i = ['n', 'o'] ++ r))) := by
  constructor
  · intro h
    unfold parse_boolean at h
    rcases altP_ok_elim h with h1 | h1
    · obtain ⟨a, ha, hb⟩ := mapP_ok_elim h1
      rcases altP_ok_elim ha with h2 | h2 <;> rw [tagP_ok_iff] at h2
      · exact Or.inl ⟨hb, Or.inl h2.1⟩
      · exact Or.inl ⟨hb, Or.inr h2.1⟩
    · obtain ⟨a, ha, hb⟩ := mapP_ok_elim h1
      rcases altP_ok_elim ha with h2 | h2 <;> rw [tagP_ok_iff] at h2
      · exact Or.inr ⟨hb, Or.inl h2.1⟩
      · exact Or.inr ⟨hb, Or.inr h2.1⟩
  · rintro (⟨hb, h | h⟩ | ⟨hb, h | h⟩) <;> subst hb <;> subst h <;> rfl

/-- C6: parsing a boolean accepts exactly the four case-sensitive spellings,
aliasing true/yes to Boolean(true) and false/no to Boolean(false); the
serializer always renders Boolean(true) as yes and Boolean(false) as no, so a
property parsed from either input spelling serializes to the canonical one. -/
theorem boolean_aliasing :
    (∀ (i r : Input) (b : Bool), parse_boolean i = .ok (r, b) ↔
      ((b = true ∧ (i = ['t', 'r', 'u', 'e'] ++ r ∨ i = ['y', 'e', 's'] ++ r)) ∨
       (b = false ∧ (i = ['f', 'a', 'l', 's', 'e'] ++ r ∨ i = ['n', 'o'] ++ r)))) ∧
    stringify_value (.Boolean true) = ([':', 'b', '=', 'y', 'e', 's']) ∧
    stringify_value (.Boolean false) = ([':', 'b', '=', 'n', 'o']) ∧
    Except.map (fun x => stringify_config x.2) (parse_config (("k:b=true\n").toList)) =
      .ok (("k:b=yes\n").toList) ∧
    Except.map (fun x => stringify_config x.2) (parse_config (("k:b=false\n").toList)) =
      .ok (("k:b=no\n").toList) := by
  refine ⟨parse_boolean_ok_iff, rfl, rfl, ?_, ?_⟩
  · rw [(by rfl : parse_config (("k:b=true\n").toList) =
      .ok ([], ⟨⟨[.Property (['k']) (.Boolean true)]⟩⟩))]
    simp only [Except.map, stringify_config, stringify_entries, stringify_value, indentC,
      spaces4, joinComma, Except.ok.injEq]
    decide
  · rw [(by rfl : parse_config (("k:b=false\n").toList) =
      .ok ([], ⟨⟨[.Property (['k']) (.Boolean false)]⟩⟩))]
    simp only [Except.map, stringify_config, stringify_entries, stringify_value, indentC,
      spaces4, joinComma, Except.ok.injEq]
    decide


/-! ## Claim C7: vector/color arity -/

/-- The type tag a property value variant corresponds to. -/
def valueTag : BlkPropertyValue → BlkType
  | .Text _ => .text
  | .Boolean _ => .boolean
  | .Integer _ => .integer
  | .Real _ => .real
  | .Vector2 _ _ => .point2
  | .Vector3 _ _ _ => .point3
  | .Vector4 _ _ _ _ => .point4
  | .Color _ _ _ _ => .color

theorem parse_property_value_tag (ty : BlkType) (i r : Input) (v : BlkPropertyValue)
    (h : parse_property_value ty i = .ok (r, v)) : valueTag v = ty := by
  cases ty <;> simp only [parse_property_value] at h
  · obtain ⟨a, _, hv⟩ := mapP_ok_elim h; rw [hv]; rfl
  · obtain ⟨a, _, hv⟩ := mapP_ok_elim h; rw [hv]; rfl
  · obtain ⟨a, _, hv⟩ := mapP_ok_elim h; rw [hv]; rfl
  · obtain ⟨a, _, hv⟩ := mapP_ok_elim h; rw [hv]; rfl
  · obtain ⟨r1, x, _, h⟩ := bindP_ok_elim h
    obtain ⟨r2, _, _, h⟩ := bindP_ok_elim h
    obtain ⟨y, _, hv⟩ := mapP_ok_elim h
    rw [hv]; rfl
  · obtain ⟨r1, x, _, h⟩ := bindP_ok_elim h
    obtain ⟨r2, _, _, h⟩ := bindP_ok_elim h
    obtain ⟨r3, y, _, h⟩ := bindP_ok_elim h
    obtain ⟨r4, _, _, h⟩ := bindP_ok_elim h
    obtain ⟨z, _, hv⟩ := mapP_ok_elim h
    rw [hv]; rfl
  · obtain ⟨r1, x, _, h⟩ := bindP_ok_elim h
    obtain ⟨r2, _, _, h⟩ := bindP_ok_elim h
    obtain ⟨r3, y, _, h⟩ := bindP_ok_elim h
    obtain ⟨r4, _, _, h⟩ := bindP_ok_elim h
    obtain ⟨r5, z, _, h⟩ := bindP_ok_elim h
    obtain ⟨r6, _, _, h⟩ := bindP_ok_elim h
    obtain ⟨w, _, hv⟩ := mapP_ok_elim h
    rw [hv]; rfl
  · obtain ⟨r1, x, _, h⟩ := bindP_ok_elim h
    obtain ⟨r2, _, _, h⟩ := bindP_ok_elim h
    obtain ⟨r3, y, _, h⟩ := bindP_ok_elim h
    obtain ⟨r4, _, _, h⟩ := bindP_ok_elim h
    obtain ⟨r5, z, _, h⟩ := bindP_ok_elim h
    obtain ⟨r6, _, _, h⟩ := bindP_ok_elim h
    obtain ⟨w, _, hv⟩ := mapP_ok_elim h
    rw [hv]; rfl

/-- C7: the arity of a vector or color value is fixed by its type tag: any
value parse_property_value produces carries the variant matching the tag
(Vector2/3/4 hold exactly 2/3/4 reals, Color exactly 4 integers); the example
`v:p4=0.35, -1, 0.35, 0;` parses to the Vector4 of those four component
literals, and a `p3` property supplying only two components fails to parse as
an entry. -/
theorem vector_color_arity :
    parse_config (("v:p4=0.35, -1, 0.35, 0;").toList) =
      .ok ([], ⟨⟨[.Property (['v'])
        (.Vector4 (['0', '.', '3', '5']) (['-', '1']) (['0', '.', '3', '5']) (['0']))]⟩⟩) ∧
    (∀ (ty : BlkType) (i r : Input) (v : BlkPropertyValue),
      parse_property_value ty i = .ok (r, v) → valueTag v = ty) ∧
    parse_entry (("v:p3=1, 2;").toList) = .error (.syntaxErr ([';']) .charK) :=
  ⟨rfl, parse_property_value_tag, rfl⟩

/-- C7 witness: the arity implication applied at a concrete parse — the p2
value text `1, 2` parses to a Vector2 and its variant tag is p2. -/
theorem vector_color_arity_witness :
    valueTag (.Vector2 (['1']) (['2'])) = .point2 :=
  vector_color_arity.2.1 .point2 (("1, 2").toList) [] (.Vector2 (['1']) (['2'])) rfl

/-! ## Claim C8: 32-bit integer literals -/

theorem takeWhile_eq_nil_of_head {p : Char → Bool} {rest : Input}
    (h : ∀ c, rest.head? = some c → p c = false) : rest.takeWhile p = [] := by
  cases rest with
  | nil => rfl
  | cons c cs => simp [List.takeWhile_cons, h c rfl]

theorem dropWhile_eq_self_of_head {p : Char → Bool} {rest : Input}
    (h : ∀ c, rest.head? = some c → p c = false) : rest.dropWhile p = rest := by
  cases rest with
  | nil => rfl
  | cons c cs => simp [List.dropWhile_cons, h c rfl]

/-- The exact-consumption lemma for the character-class scanners: a nonempty
run of class characters followed by input not starting in the class is
consumed exactly. -/
theorem takeWhile1_exact {p : Char → Bool} (k : ErrKind) {ds rest : Input}
    (hds : ∀ c ∈ ds, p c = true) (hne : ds ≠ [])
    (hrest : ∀ c, rest.head? = some c → p c = false) :
    takeWhile1 p k (ds ++ rest) = .ok (rest, ds) := by
  unfold takeWhile1
  rw [takeWhile_append_all hds, takeWhile_eq_nil_of_head hrest, List.append_nil,
    dropWhile_append_all hds, dropWhile_eq_self_of_head hrest]
  cases ds with
  | nil => exact absurd rfl hne
  | cons c cs => rfl

/-- C8: an integer literal is an optional sign followed by decimal digits,
parsed as a 32-bit signed integer: within the i32 range the digits' value is
returned (negated under a leading minus), and any digit sequence whose value
leaves the range makes parse_integer fail rather than wrap. -/
theorem parse_integer_spec :
    ∀ (ds rest : Input), (∀ c ∈ ds, isDigitC c = true) → ds ≠ [] →
    (∀ c, rest.head? = some c → isDigitC c = false) →
    ((natFromDigits ds ≤ 2147483647 →
        parse_integer (ds ++ rest) = .ok (rest, (natFromDigits ds : Int))) ∧
     (2147483647 < natFromDigits ds →
        parse_integer (ds ++ rest) = .error (.syntaxErr (ds ++ rest) .intRangeK)) ∧
     (natFromDigits ds ≤ 2147483647 →
        parse_integer ('+' :: (ds ++ rest)) = .ok (rest, (natFromDigits ds : Int))) ∧
     (2147483647 < natFromDigits ds →
        parse_integer ('+' :: (ds ++ rest)) =
          .error (.syntaxErr ('+' :: (ds ++ rest)) .intRangeK)) ∧
     (natFromDigits ds ≤ 2147483648 →
        parse_integer ('-' :: (ds ++ rest)) = .ok (rest, -(natFromDigits ds : Int))) ∧
     (2147483648 < natFromDigits ds →
        parse_integer ('-' :: (ds ++ rest)) =
          .error (.syntaxErr ('-' :: (ds ++ rest)) .intRangeK))) := by
  intro ds rest hds hne hrest
  have hd1 : digit1 (ds ++ rest) = .ok (rest, ds) := takeWhile1_exact _ hds hne hrest
  have hs0 : signSplit (ds ++ rest) = (none, ds ++ rest) := by
    cases ds with
    | nil => exact absurd rfl hne
    | cons c cs =>
      have hc : isDigitC c = true := hds c (by simp)
      have h1 : c ≠ '+' := by rintro rfl; simp [isDigitC] at hc
      have h2 : c ≠ '-' := by rintro rfl; simp [isDigitC] at hc
      simp [signSplit, h1, h2]
  have hsp : signSplit ('+' :: (ds ++ rest)) = (some true, ds ++ rest) := by
    simp [signSplit]
  have hsm : signSplit ('-' :: (ds ++ rest)) = (some false, ds ++ rest) := by
    simp [signSplit]
  refine ⟨?_, ?_, ?_, ?_, ?_, ?_⟩ <;> intro hbound
  · simp only [parse_integer, hs0, hd1]
    rw [if_pos hbound]
  · simp only [parse_integer, hs0, hd1]
    rw [if_neg (by omega)]
  · simp only [parse_integer, hsp, hd1]
    rw [if_pos hbound]
  · simp only [parse_integer, hsp, hd1]
    rw [if_neg (by omega)]
  · simp only [parse_integer, hsm, hd1]
    rw [if_pos hbound]
  · simp only [parse_integer, hsm, hd1]
    rw [if_neg (by omega)]

/-- C8 witness: the theorem applied at the digit strings 2147483648 (one past
i32::MAX, a hard failure) and 30 (parsed to Integer 30). -/
theorem parse_integer_spec_witness :
    parse_integer (("2147483648").toList) = .error (.syntaxErr (("2147483648").toList) .intRangeK) ∧
    parse_integer (("30").toList) = .ok ([], (30 : Int)) := by
  constructor
  · have h := (parse_integer_spec (("2147483648").toList) [] (by decide) (by decide)
      (by intro c hc; simp at hc)).2.1 (by decide)
    simpa using h
  · have h := (parse_integer_spec (("30").toList) [] (by decide) (by decide)
      (by intro c hc; simp at hc)).1 (by decide)
    simpa using h


/-! ## Fuel-exhaustion tracing -/

theorem bindP_fuel_elim {α β : Type} {p : Parser α} {f : α → Parser β} {i : Input}
    (h : bindP p f i = .error .fuelOut) :
    p i = .error .fuelOut ∨ ∃ r a, p i = .ok (r, a) ∧ f a r = .error .fuelOut := by
  unfold bindP at h
  split at h
  case h_1 e heq =>
    simp only [Except.error.injEq] at h
    rw [h] at heq
    exact Or.inl heq
  case h_2 r a heq => exact Or.inr ⟨r, a, heq, h⟩

theorem altP_fuel_elim {α : Type} {p q : Parser α} {i : Input}
    (h : altP p q i = .error .fuelOut) :
    p i = .error .fuelOut ∨ q i = .error .fuelOut := by
  unfold altP at h
  split at h
  · exact absurd h (by simp)
  case h_2 heq => exact Or.inl heq
  case h_3 => exact Or.inr h
  case h_4 => exact absurd h (by simp)

theorem mapP_fuel_elim {α β : Type} {p : Parser α} {f : α → β} {i : Input}
    (h : mapP p f i = .error .fuelOut) : p i = .error .fuelOut := by
  unfold mapP at h
  split at h
  case h_1 e heq =>
    simp only [Except.error.injEq] at h
    rw [h] at heq
    exact heq
  case h_2 => exact absurd h (by simp)

theorem noFuel_takeWhile1 (p : Char → Bool) (k : ErrKind) : NoFuel (takeWhile1 p k) := by
  intro i h
  unfold takeWhile1 at h
  split at h <;> simp at h

theorem noFuel_multispace0 : NoFuel multispace0 := by
  intro i h
  simp [multispace0] at h

theorem noFuel_pureP {α : Type} (a : α) : NoFuel (pureP a) := by
  intro i h
  simp [pureP] at h

theorem noFuel_tagNoCaseP (t : List Char) : NoFuel (tagNoCaseP t) := by
  intro i h
  unfold tagNoCaseP at h
  split at h <;> simp at h

theorem noFuel_takeUntilCh (c : Char) : NoFuel (takeUntilCh c) := by
  intro i h
  simp only [takeUntilCh] at h
  split at h <;> simp at h

theorem noFuel_optP {α : Type} {p : Parser α} (hp : NoFuel p) : NoFuel (optP p) := by
  intro i h
  unfold optP at h
  split at h
  · simp at h
  case h_2 heq => exact hp i heq
  case h_3 => simp at h
  case h_4 => simp at h

theorem noFuel_bindP {α β : Type} {p : Parser α} {f : α → Parser β}
    (hp : NoFuel p) (hf : ∀ a, NoFuel (f a)) : NoFuel (bindP p f) := by
  intro i h
  rcases bindP_fuel_elim h with h | ⟨r, a, _, h⟩
  · exact hp i h
  · exact hf a r h

theorem noFuel_recognizeP {α : Type} {p : Parser α} (hp : NoFuel p) :
    NoFuel (recognizeP p) := by
  intro i h
  unfold recognizeP at h
  split at h
  case h_1 e heq =>
    simp only [Except.error.injEq] at h
    rw [h] at heq
    exact hp i heq
  case h_2 => simp at h

theorem noFuel_charP2 (c : Char) : NoFuel (charP c) := noFuel_charP c

theorem consumes_takeWhile1 (p : Char → Bool) (k : ErrKind) : Consumes (takeWhile1 p k) := by
  intro i r a h
  unfold takeWhile1 at h
  split at h
  · exact absurd h (by simp)
  case h_2 c cs heq =>
    simp only [Except.ok.injEq, Prod.mk.injEq] at h
    have hlen : i.takeWhile p ++ i.dropWhile p = i := List.takeWhile_append_dropWhile p i
    have : (i.takeWhile p).length + (i.dropWhile p).length = i.length := by
      rw [← List.length_append, hlen]
    have hne : (i.takeWhile p).length ≠ 0 := by rw [heq]; simp
    rw [← h.1]
    omega

theorem consumes_identChunk : Consumes identChunk := by
  intro i r a h
  unfold identChunk at h
  rcases altP_ok_elim h with h1 | h1
  · exact consumes_takeWhile1 _ _ i r a h1
  · rcases altP_ok_elim h1 with h2 | h2
    · exact consumes_takeWhile1 _ _ i r a h2
    · exact consumes_tagP (by simp) i r a h2

theorem noFuel_identChunk : NoFuel identChunk :=
  noFuel_altP (noFuel_takeWhile1 _ _) (noFuel_altP (noFuel_takeWhile1 _ _) (noFuel_tagP _))

/-- `many1F` at the canonical fuel cannot report fuel exhaustion when the
inner parser consumes and is fuel-free and cut-free. -/
theorem many1F_noFuel_at {α : Type} {p : Parser α} (hc : Consumes p)
    (hn : NoFuel p) (hh : NoHard p) (i : Input) :
    many1F p (i.length + 1) i ≠ .error .fuelOut := by
  intro h
  unfold many1F at h
  split at h
  case h_1 e heq =>
    simp only [Except.error.injEq] at h
    rw [h] at heq
    exact hn i heq
  case h_2 r a heq =>
    have hr : r.length < i.length := hc i r a heq
    obtain ⟨r2, xs, h2⟩ := many0F_total hc hn hh (i.length + 1) r (by omega)
    rw [h2] at h
    simp at h

theorem noFuel_parse_identifier : NoFuel parse_identifier := by
  intro i h
  unfold parse_identifier at h
  unfold recognizeP at h
  split at h
  case h_1 e heq =>
    simp only [Except.error.injEq] at h
    rw [h] at heq
    exact many1F_noFuel_at consumes_identChunk noFuel_identChunk noHard_identChunk i heq
  case h_2 => simp at h

theorem consumes_parse_identifier : Consumes parse_identifier := by
  intro i r a h
  unfold parse_identifier recognizeP at h
  split at h
  · exact absurd h (by simp)
  case h_2 r' a' heq =>
    simp only [Except.ok.injEq, Prod.mk.injEq] at h
    rw [← h.1]
    have heq' : many1F identChunk (i.length + 1) i = .ok (r', a') := heq
    unfold many1F at heq'
    split at heq'
    · exact absurd heq' (by simp)
    case h_2 r1 a1 hp =>
      split at heq'
      case h_1 r2 xs h2 =>
        simp only [Except.ok.injEq, Prod.mk.injEq] at heq'
        have := suffix_length_le (sfx_many0F sfx_identChunk _ r1 r2 xs h2)
        have := consumes_identChunk i r1 a1 hp
        rw [← heq'.1]
        omega
      case h_2 => exact absurd heq' (by simp)

theorem noFuel_parse_separator : NoFuel parse_separator := by
  intro i h
  unfold parse_separator at h
  split at h
  case h_1 e heq =>
    simp only [Except.error.injEq] at h
    rw [h] at heq
    exact many1F_noFuel_at consumes_sepAtom noFuel_sepAtom noHard_sepAtom i heq
  case h_2 => simp at h

theorem noFuel_parse_blk_type : NoFuel parse_blk_type := by
  unfold parse_blk_type
  exact noFuel_altP (noFuel_mapP _ (noFuel_tagP _)) (noFuel_altP (noFuel_mapP _ (noFuel_tagP _))
    (noFuel_altP (noFuel_mapP _ (noFuel_tagP _)) (noFuel_altP (noFuel_mapP _ (noFuel_tagP _))
      (noFuel_altP (noFuel_mapP _ (noFuel_tagP _)) (noFuel_altP (noFuel_mapP _ (noFuel_tagP _))
        (noFuel_altP (noFuel_mapP _ (noFuel_tagP _)) (noFuel_mapP _ (noFuel_tagP _))))))))

theorem noFuel_parse_integer : NoFuel parse_integer := by
  intro i h
  unfold parse_integer at h
  split at h
  case h_1 e heq =>
    simp only [Except.error.injEq] at h
    rw [h] at heq
    exact noFuel_takeWhile1 _ _ _ heq
  case h_2 r ds heq =>
    split at h <;> split at h <;> simp at h

theorem noFuel_parse_boolean : NoFuel parse_boolean :=
  noFuel_altP (noFuel_mapP _ (noFuel_altP (noFuel_tagP _) (noFuel_tagP _)))
    (noFuel_mapP _ (noFuel_altP (noFuel_tagP _) (noFuel_tagP _)))

theorem noFuel_optSignP : NoFuel optSignP :=
  noFuel_optP (noFuel_altP (noFuel_charP _) (noFuel_charP _))

theorem noFuel_mantissaP : NoFuel mantissaP := by
  unfold mantissaP
  exact noFuel_altP
    (noFuel_bindP (noFuel_takeWhile1 _ _) fun _ =>
      noFuel_mapP _ (noFuel_optP (noFuel_bindP (noFuel_charP _) fun _ =>
        noFuel_optP (noFuel_takeWhile1 _ _))))
    (noFuel_bindP (noFuel_charP _) fun _ => noFuel_mapP _ (noFuel_takeWhile1 _ _))

theorem noFuel_cutP {α : Type} {p : Parser α} (hp : NoFuel p) : NoFuel (cutP p) := by
  intro i h
  unfold cutP at h
  split at h
  · simp at h
  case h_2 heq => exact hp i heq
  · simp at h
  · simp at h

theorem noFuel_expP : NoFuel expP := by
  unfold expP
  exact noFuel_mapP _ (noFuel_optP (noFuel_bindP (noFuel_altP (noFuel_charP _) (noFuel_charP _))
    fun _ => noFuel_bindP noFuel_optSignP fun _ => noFuel_cutP (noFuel_takeWhile1 _ _)))

theorem noFuel_parse_real : NoFuel parse_real := by
  unfold parse_real recognize_float
  exact noFuel_altP
    (noFuel_recognizeP (noFuel_bindP noFuel_optSignP fun _ =>
      noFuel_bindP noFuel_mantissaP fun _ => noFuel_expP))
    (noFuel_altP (noFuel_tagNoCaseP _) (noFuel_altP (noFuel_tagNoCaseP _) (noFuel_tagNoCaseP _)))

theorem noFuel_parse_string : NoFuel parse_string :=
  noFuel_bindP (noFuel_charP _) fun _ =>
    noFuel_bindP (noFuel_takeUntilCh _) fun _ => noFuel_mapP _ (noFuel_charP _)

theorem noFuel_parse_vector_delimiter : NoFuel parse_vector_delimiter :=
  noFuel_bindP (noFuel_charP _) fun _ => noFuel_mapP _ noFuel_multispace0

theorem noFuel_parse_property_value (ty : BlkType) : NoFuel (parse_property_value ty) := by
  cases ty <;> unfold parse_property_value
  · exact noFuel_mapP _ noFuel_parse_string
  · exact noFuel_mapP _ noFuel_parse_boolean
  · exact noFuel_mapP _ noFuel_parse_integer
  · exact noFuel_mapP _ noFuel_parse_real
  · exact noFuel_bindP noFuel_parse_real fun _ => noFuel_bindP noFuel_parse_vector_delimiter
      fun _ => noFuel_mapP _ noFuel_parse_real
  · exact noFuel_bindP noFuel_parse_real fun _ => noFuel_bindP noFuel_parse_vector_delimiter
      fun _ => noFuel_bindP noFuel_parse_real fun _ => noFuel_bindP noFuel_parse_vector_delimiter
      fun _ => noFuel_mapP _ noFuel_parse_real
  · exact noFuel_bindP noFuel_parse_real fun _ => noFuel_bindP noFuel_parse_vector_delimiter
      fun _ => noFuel_bindP noFuel_parse_real fun _ => noFuel_bindP noFuel_parse_vector_delimiter
      fun _ => noFuel_bindP noFuel_parse_real fun _ => noFuel_bindP noFuel_parse_vector_delimiter
      fun _ => noFuel_mapP _ noFuel_parse_real
  · exact noFuel_bindP noFuel_parse_integer fun _ => noFuel_bindP noFuel_parse_vector_delimiter
      fun _ => noFuel_bindP noFuel_parse_integer fun _ => noFuel_bindP noFuel_parse_vector_delimiter
      fun _ => noFuel_bindP noFuel_parse_integer fun _ => noFuel_bindP noFuel_parse_vector_delimiter
      fun _ => noFuel_mapP _ noFuel_parse_integer

theorem noFuel_parse_property : NoFuel parse_property :=
  noFuel_bindP noFuel_parse_identifier fun _ => noFuel_bindP (noFuel_charP _) fun _ =>
    noFuel_bindP noFuel_parse_blk_type fun ty => noFuel_bindP (noFuel_charP _) fun _ =>
      noFuel_mapP _ (noFuel_parse_property_value ty)

/-! ## Totality of the block parser (at sufficient fuel) -/

/-- Like many0F_total, but the inner parser only needs to be fuel-free on
suffixes of the input. -/
theorem many0F_total2 {α : Type} {p : Parser α} (hs : Sfx p) (hc : Consumes p) :
    ∀ (f : Nat) (i : Input), i.length < f →
      (∀ j, j <:+ i → p j ≠ .error .fuelOut) →
      (∃ r xs, many0F p f i = .ok (r, xs)) ∨
        (∃ r k, many0F p f i = .error (.failure r k)) := by
  intro f
  induction f with
  | zero => intro i h; omega
  | succ f ih =>
    intro i hlen hn
    simp only [many0F]
    cases hp : p i with
    | error e =>
      cases e with
      | fuelOut => exact absurd hp (hn i (List.suffix_refl i))
      | syntaxErr rest k => exact Or.inl ⟨i, [], rfl⟩
      | failure rest k => exact Or.inr ⟨rest, k, rfl⟩
    | ok x =>
      obtain ⟨r, a⟩ := x
      have hcons := hc i r a hp
      have hsfx := hs i r a hp
      have hne : ¬ (r.length = i.length) := by omega
      simp only [hne, if_false]
      rcases ih r (by omega) (fun j hj => hn j (hj.trans hsfx)) with
        ⟨r2, xs, h2⟩ | ⟨r2, k2, h2⟩
      · exact Or.inl ⟨r2, a :: xs, by rw [h2]⟩
      · exact Or.inr ⟨r2, k2, by rw [h2]⟩

/-- parse_sectionG only applies its block parser to inputs at least two
characters shorter than its own input. -/
theorem sectionG_fuel_trace {pb : Parser BlkBlock} {j : Input}
    (h : parse_sectionG pb j = .error .fuelOut) :
    ∃ k, k.length + 2 ≤ j.length ∧ pb k = .error .fuelOut := by
  unfold parse_sectionG at h
  rcases bindP_fuel_elim h with h | ⟨r1, name, h1, h⟩
  · exact absurd h (noFuel_parse_identifier j)
  rcases bindP_fuel_elim h with h | ⟨r2, c2, h2, h⟩
  · exact absurd h (noFuel_charP _ r1)
  rcases bindP_fuel_elim h with h | ⟨r3, blk, h3, h⟩
  · refine ⟨r2, ?_, h⟩
    have l1 : r1.length < j.length := consumes_parse_identifier j r1 name h1
    have l2 : r2.length < r1.length := consumes_charP _ r1 r2 c2 h2
    omega
  · exact absurd h (noFuel_mapP _ (noFuel_charP _) r3)

theorem entryG_fuel_trace {pb : Parser BlkBlock} {j : Input}
    (h : parse_entryG pb j = .error .fuelOut) :
    ∃ k, k.length + 2 ≤ j.length ∧ pb k = .error .fuelOut := by
  unfold parse_entryG at h
  rcases bindP_fuel_elim h with h | ⟨r1, w1, h1, h⟩
  · exact absurd h (noFuel_multispace0 j)
  rcases bindP_fuel_elim h with h | ⟨r2, e2, h2, h⟩
  · rcases altP_fuel_elim h with h | h
    · obtain ⟨k, hk, hpb⟩ := sectionG_fuel_trace h
      have l1 : r1.length ≤ j.length := suffix_length_le (sfx_multispace0 j r1 w1 h1)
      exact ⟨k, by omega, hpb⟩
    · exact absurd h (noFuel_parse_property r1)
  · exact absurd (mapP_fuel_elim h) (noFuel_parse_separator r2)

/-- With fuel exceeding the input length, parse_blockF either succeeds or
returns a hard failure (the one raised by `cut` inside a float exponent); it
never runs out of fuel and never reports a backtrackable error. -/
theorem parse_blockF_total :
    ∀ (f : Nat) (i : Input), i.length < f →
      (∃ r b, parse_blockF f i = .ok (r, b)) ∨
        (∃ r k, parse_blockF f i = .error (.failure r k)) := by
  intro f
  induction f with
  | zero => intro i h; omega
  | succ f ih =>
    intro i hlen
    have hnf : ∀ j, j <:+ i → parse_entryG (parse_blockF f) j ≠ .error .fuelOut := by
      intro j hj hfuel
      obtain ⟨k, hk, hpb⟩ := entryG_fuel_trace hfuel
      have hjl : j.length ≤ i.length := suffix_length_le hj
      rcases ih k (by omega) with ⟨r, b, hok⟩ | ⟨r, kk, hok⟩ <;> rw [hok] at hpb
      · exact Except.noConfusion hpb
      · simp at hpb
    rcases many0F_total2 (sfx_parse_entryG (sfx_parse_blockF f))
        (consumes_parse_entryG (sfx_parse_blockF f)) (i.length + 1) i (by omega) hnf with
      ⟨r, xs, hm⟩ | ⟨r, k, hm⟩
    · refine Or.inl ⟨r.dropWhile isSpaceC, ⟨xs⟩, ?_⟩
      simp only [parse_blockF]
      rw [hm]
      rfl
    · refine Or.inr ⟨r, k, ?_⟩
      simp only [parse_blockF]
      rw [hm]

/-- C3 counterexample: parse_config is not total.  On `a:r=1e;` the float
grammar consumes the exponent marker `e` and then hits nom's `cut(digit1)`
with no digits left before the `;`: the resulting hard failure is propagated
by `opt`, `alt` and `many0`, and parse_config returns it as an error. -/
theorem parse_config_exponent_cut_failure :
    parse_config (("a:r=1e;").toList) = .error (.failure ([';']) .digitK) :=
  rfl

/-- C3 (corrected): parse_config never panics, never exhausts the recursion
bound and never reports a backtrackable error — on every input it either
returns Ok (the block parser is a zero-or-more loop whose entry parser, when
it succeeds, always consumes at least one character: its mandatory
separator), or returns the hard failure raised by nom's `cut` on a float
exponent with no digits. -/
theorem parse_config_ok_or_cut :
    (∀ i : Input, (∃ l c, parse_config i = .ok (l, c)) ∨
      (∃ r k, parse_config i = .error (.failure r k))) ∧
    (∀ (i r : Input) (e : BlkEntry), parse_entry i = .ok (r, e) → r.length < i.length) := by
  constructor
  · intro i
    rcases parse_blockF_total (i.length + 1) i (by omega) with ⟨r, b, h⟩ | ⟨r, k, h⟩
    · refine Or.inl ⟨r, ⟨b⟩, ?_⟩
      unfold parse_config parse_block
      rw [h]
    · refine Or.inr ⟨r, k, ?_⟩
      unfold parse_config parse_block
      rw [h]
  · exact consumes_parse_entry

/-- C3 witness: the consumption half applied at the concrete entry `a:i=1;`,
which parses with empty leftover. -/
theorem parse_config_ok_or_cut_witness :
    ([] : Input).length < (("a:i=1;").toList).length :=
  parse_config_ok_or_cut.2 (("a:i=1;").toList) [] (.Property (['a']) (.Integer 1)) rfl

/-! ## Fuel refinement and stability -/

/-- P' agrees with P wherever P is not fuel-starved (P at larger fuel). -/
def Refines {α : Type} (P P' : Parser α) : Prop :=
  ∀ i, P i ≠ .error .fuelOut → P' i = P i

theorem refines_self {α : Type} (p : Parser α) : Refines p p := fun _ _ => rfl

theorem refines_bindP {α β : Type} {p p' : Parser α} {f f' : α → Parser β}
    (hp : Refines p p') (hf : ∀ a, Refines (f a) (f' a)) :
    Refines (bindP p f) (bindP p' f') := by
  intro i hi
  unfold bindP at hi ⊢
  cases hp' : p i with
  | error e =>
    rw [hp'] at hi
    cases e with
    | fuelOut => exact absurd rfl hi
    | syntaxErr rest k => rw [hp i (by rw [hp']; simp), hp']
    | failure rest k => rw [hp i (by rw [hp']; simp), hp']
  | ok x =>
    obtain ⟨r, a⟩ := x
    rw [hp'] at hi
    rw [hp i (by rw [hp']; simp), hp']
    exact hf a r hi

theorem refines_mapP {α β : Type} {p p' : Parser α} (f : α → β) (hp : Refines p p') :
    Refines (mapP p f) (mapP p' f) := by
  intro i hi
  unfold mapP at hi ⊢
  cases hp' : p i with
  | error e =>
    rw [hp'] at hi
    cases e with
    | fuelOut => exact absurd rfl hi
    | syntaxErr rest k => rw [hp i (by rw [hp']; simp), hp']
    | failure rest k => rw [hp i (by rw [hp']; simp), hp']
  | ok x =>
    rw [hp i (by rw [hp']; simp), hp']

theorem refines_altP {α : Type} {p p' q q' : Parser α}
    (hp : Refines p p') (hq : Refines q q') : Refines (altP p q) (altP p' q') := by
  intro i hi
  unfold altP at hi ⊢
  cases hp' : p i with
  | error e =>
    rw [hp'] at hi
    cases e with
    | fuelOut => exact absurd rfl hi
    | syntaxErr rest k =>
      rw [hp i (by rw [hp']; simp), hp']
      exact hq i hi
    | failure rest k => rw [hp i (by rw [hp']; simp), hp']
  | ok x =>
    rw [hp i (by rw [hp']; simp), hp']

theorem refines_many0F {α : Type} {p p' : Parser α} (hp : Refines p p') :
    ∀ g, Refines (many0F p g) (many0F p' g) := by
  intro g
  induction g with
  | zero => intro i hi; exact absurd rfl hi
  | succ g ih =>
    intro i hi
    simp only [many0F] at hi ⊢
    cases hp' : p i with
    | error e =>
      rw [hp'] at hi
      cases e with
      | fuelOut => exact absurd rfl hi
      | syntaxErr rest k => rw [hp i (by rw [hp']; simp), hp']
      | failure rest k => rw [hp i (by rw [hp']; simp), hp']
    | ok x =>
      obtain ⟨r, a⟩ := x
      rw [hp'] at hi
      rw [hp i (by rw [hp']; simp), hp']
      by_cases hg : r.length = i.length
      · simp only [hg, if_true] at hi ⊢
      · simp only [hg, if_false] at hi ⊢
        cases hm : many0F p g r with
        | error e =>
          rw [hm] at hi
          cases e with
          | fuelOut => exact absurd rfl hi
          | syntaxErr rest k => rw [ih r (by rw [hm]; simp), hm]
          | failure rest k => rw [ih r (by rw [hm]; simp), hm]
        | ok y => rw [ih r (by rw [hm]; simp), hm]

theorem refines_sectionG {pb pb' : Parser BlkBlock} (hpb : Refines pb pb') :
    Refines (parse_sectionG pb) (parse_sectionG pb') := by
  unfold parse_sectionG
  exact refines_bindP (refines_self _) fun name =>
    refines_bindP (refines_self _) fun _ =>
      refines_bindP hpb fun blk => refines_mapP _ (refines_self _)

theorem refines_entryG {pb pb' : Parser BlkBlock} (hpb : Refines pb pb') :
    Refines (parse_entryG pb) (parse_entryG pb') := by
  unfold parse_entryG
  exact refines_bindP (refines_self _) fun _ =>
    refines_bindP (refines_altP (refines_sectionG hpb) (refines_self _)) fun e =>
      refines_mapP _ (refines_self _)

theorem parse_blockF_mono :
    ∀ (f f' : Nat), f ≤ f' → Refines (parse_blockF f) (parse_blockF f') := by
  intro f
  induction f with
  | zero => intro f' _ i hi; exact absurd rfl hi
  | succ f ih =>
    intro f' hff i hi
    obtain ⟨f2, rfl⟩ : ∃ f2, f' = f2 + 1 := ⟨f' - 1, by omega⟩
    have hE : Refines (parse_entryG (parse_blockF f)) (parse_entryG (parse_blockF f2)) :=
      refines_entryG (ih f2 (by omega))
    simp only [parse_blockF] at hi ⊢
    cases hm : many0F (parse_entryG (parse_blockF f)) (i.length + 1) i with
    | error e =>
      rw [hm] at hi
      cases e with
      | fuelOut => exact absurd rfl hi
      | syntaxErr rest k => rw [refines_many0F hE (i.length + 1) i (by rw [hm]; simp), hm]
      | failure rest k => rw [refines_many0F hE (i.length + 1) i (by rw [hm]; simp), hm]
    | ok x =>
      rw [refines_many0F hE (i.length + 1) i (by rw [hm]; simp), hm]

theorem parse_blockF_stable (f1 f2 : Nat) (i : Input) (h1 : i.length < f1)
    (h2 : i.length < f2) : parse_blockF f1 i = parse_blockF f2 i := by
  rcases Nat.le_total f1 f2 with h | h
  · rcases parse_blockF_total f1 i h1 with ⟨r, b, hok⟩ | ⟨r, k, hok⟩ <;>
      exact (parse_blockF_mono f1 f2 h i (by rw [hok]; simp)).symm
  · rcases parse_blockF_total f2 i h2 with ⟨r, b, hok⟩ | ⟨r, k, hok⟩ <;>
      exact parse_blockF_mono f2 f1 h i (by rw [hok]; simp)

/-! ## Claim C10: leftover characterization -/

/-- A successful many0 loop always stops at a syntax failure of the inner
parser on the returned remaining input. -/
theorem many0F_ok_last {α : Type} {p : Parser α} :
    ∀ (g : Nat) (i r : Input) (xs : List α), many0F p g i = .ok (r, xs) →
      ∃ rest k, p r = .error (.syntaxErr rest k) := by
  intro g
  induction g with
  | zero => intro i r xs h; simp [many0F] at h
  | succ g ih =>
    intro i r xs h
    simp only [many0F] at h
    split at h
    · exact absurd h (by simp)
    case h_2 rest k heq =>
      simp only [Except.ok.injEq, Prod.mk.injEq] at h
      exact ⟨rest, k, by rw [← h.1]; exact heq⟩
    case h_3 r1 a heq =>
      split at h
      · exact absurd h (by simp)
      · split at h
        case h_1 r2 xs2 heq2 =>
          simp only [Except.ok.injEq, Prod.mk.injEq] at h
          obtain ⟨rest, k, hk⟩ := ih r1 r2 xs2 heq2
          exact ⟨rest, k, by rw [← h.1]; exact hk⟩
        case h_2 => exact absurd h (by simp)
    case h_4 => exact absurd h (by simp)

theorem dropWhile_head_not (p : Char → Bool) : ∀ (l : List Char) {d : Char} {ds : List Char},
    l.dropWhile p = d :: ds → p d = false := by
  intro l
  induction l with
  | nil => intro d ds h; simp at h
  | cons c cs ih =>
    intro d ds h
    rw [List.dropWhile_cons] at h
    by_cases hp : p c
    · rw [if_pos hp] at h
      exact ih h
    · rw [if_neg hp] at h
      injection h with h1 h2
      subst h1
      simpa using hp

theorem dropWhile_idem (p : Char → Bool) (l : List Char) :
    (l.dropWhile p).dropWhile p = l.dropWhile p := by
  cases hl : l.dropWhile p with
  | nil => rfl
  | cons d ds =>
    have hd : p d = false := dropWhile_head_not p l hl
    rw [List.dropWhile_cons, hd]
    simp

/-- parse_entry ignores leading whitespace: running it at a position and at
that position with its leading whitespace stripped is the same. -/
theorem entryG_strip (pb : Parser BlkBlock) (j : Input) :
    parse_entryG pb j = parse_entryG pb (j.dropWhile isSpaceC) := by
  unfold parse_entryG bindP multispace0
  simp only [dropWhile_idem]

/-- parse_entry only applies its block parser to inputs at least two
characters shorter than its own whitespace-stripped input. -/
theorem entryG_ext_on {pb pb' : Parser BlkBlock} {j : Input}
    (h : ∀ k, k.length + 2 ≤ j.length → pb k = pb' k) :
    parse_entryG pb j = parse_entryG pb' j := by
  unfold parse_entryG bindP multispace0
  simp only
  have hsec : parse_sectionG pb (j.dropWhile isSpaceC) =
      parse_sectionG pb' (j.dropWhile isSpaceC) := by
    unfold parse_sectionG bindP
    cases hid : parse_identifier (j.dropWhile isSpaceC) with
    | error e => rfl
    | ok x =>
      obtain ⟨r1, name⟩ := x
      simp only
      cases hch : charP '\x7b' r1 with
      | error e => rfl
      | ok y =>
        obtain ⟨r2, c2⟩ := y
        simp only
        have hb : r2.length + 2 ≤ j.length := by
          have l0 : (j.dropWhile isSpaceC).length ≤ j.length :=
            suffix_length_le (List.dropWhile_suffix isSpaceC)
          have l1 : r1.length < (j.dropWhile isSpaceC).length :=
            consumes_parse_identifier _ r1 name hid
          have l2 : r2.length < r1.length := consumes_charP _ r1 r2 c2 hch
          omega
        rw [h r2 hb]
  rw [show altP (parse_sectionG pb) parse_property (j.dropWhile isSpaceC) =
      altP (parse_sectionG pb') parse_property (j.dropWhile isSpaceC) from by
    unfold altP; rw [hsec]]

/-- C10 counterexample: the leftover characterization is not available on
every input, because parse_config does not succeed on every input: on
`b:r=2E-;` the float exponent's `cut(digit1)` raises a hard failure (the `-`
sign is consumed, then no digits remain before `;`), so parse_config returns
an error and there is no leftover at all. -/
theorem parse_config_failure_no_leftover :
    parse_config (("b:r=2E-;").toList) = .error (.failure ([';']) .digitK) :=
  rfl

/-- C10 (corrected): whenever parse_config succeeds — every input except
those aborted by the hard failure of `cut` on a float exponent — its leftover
is the unconsumed suffix of the input after the longest successful block
parse: the input equals the consumed prefix followed by the leftover, and no
further entry can be parsed at the start of the leftover. -/
theorem leftover_suffix_no_entry :
    ∀ (i l : Input) (c : BlkConfig), parse_config i = .ok (l, c) →
      ∃ pre, i = pre ++ l ∧
        ∃ rest k, parse_entry l = .error (.syntaxErr rest k) := by
  intro i l c hcfg
  have hblk : parse_block i = .ok (l, c.block) := by
    unfold parse_config at hcfg
    cases hb : parse_block i with
    | error e => rw [hb] at hcfg; exact absurd hcfg (by simp)
    | ok x =>
      obtain ⟨r0, b0⟩ := x
      rw [hb] at hcfg
      simp only [Except.ok.injEq, Prod.mk.injEq] at hcfg
      obtain ⟨h1, h2⟩ := hcfg
      rw [h1, ← h2]
  obtain ⟨pre, hpre⟩ : l <:+ i := sfx_parse_config i l c hcfg
  have hblkF : parse_blockF (i.length + 1) i = .ok (l, c.block) := hblk
  obtain ⟨r, xs, hmany, hldrop⟩ : ∃ r xs,
      many0F (parse_entryG (parse_blockF i.length)) (i.length + 1) i = .ok (r, xs) ∧
      l = r.dropWhile isSpaceC := by
    simp only [parse_blockF] at hblkF
    cases hm : many0F (parse_entryG (parse_blockF i.length)) (i.length + 1) i with
    | error e => rw [hm] at hblkF; exact absurd hblkF (by simp)
    | ok y =>
      obtain ⟨r, xs⟩ := y
      rw [hm] at hblkF
      simp only [multispace0, Except.ok.injEq, Prod.mk.injEq] at hblkF
      exact ⟨r, xs, rfl, hblkF.1.symm⟩
  obtain ⟨rest, k, hlast⟩ := many0F_ok_last _ i r xs hmany
  refine ⟨pre, hpre.symm, rest, k, ?_⟩
  have step1 : parse_entryG (parse_blockF i.length) l =
      .error (.syntaxErr rest k) := by
    rw [← hlast, hldrop, ← entryG_strip]
  have step2 : parse_entry l = parse_entryG (parse_blockF i.length) l := by
    unfold parse_entry
    apply entryG_ext_on
    intro kk hkk
    have hll : l.length ≤ i.length := suffix_length_le ⟨pre, hpre⟩
    unfold parse_block
    exact parse_blockF_stable (kk.length + 1) i.length kk (by omega) (by omega)
  rw [step2, step1]

/-- C10 witness: at `a:i=1;x` parse_config succeeds with leftover `x`, and the
theorem's consumed-prefix and no-further-entry conclusions hold there. -/
theorem leftover_suffix_no_entry_witness :
    parse_config (("a:i=1;x").toList) =
      .ok (['x'], ⟨⟨[.Property (['a']) (.Integer 1)]⟩⟩) ∧
    ∃ pre, ("a:i=1;x").toList = pre ++ ['x'] ∧
      ∃ rest k, parse_entry (['x']) = .error (.syntaxErr rest k) :=
  ⟨rfl, leftover_suffix_no_entry (("a:i=1;x").toList) (['x'])
    ⟨⟨[.Property (['a']) (.Integer 1)]⟩⟩ rfl⟩


/-! ## Claim C5: the historical property parser of src/parser.rs

src/parser.rs is the earlier generation of the grammar: its AST declarations
duplicate src/types.rs verbatim (they are shared here), its lexical parsers
are identical to those of src/parsers/blk.rs, and its property parser is
built from eight independent tagged alternatives instead of the unified
tag-then-dispatch rule. -/

/-- parse_property_text (src/parser.rs): `tag("t=")` then a quoted string. -/
def parse_property_text : Parser BlkPropertyValue :=
  bindP (tagP ['t', '=']) fun _ => mapP parse_string fun s => .Text s

/-- parse_property_integer (src/parser.rs). -/
def parse_property_integer : Parser BlkPropertyValue :=
  bindP (tagP ['i', '=']) fun _ => mapP parse_integer fun n => .Integer n

/-- parse_property_real (src/parser.rs). -/
def parse_property_real : Parser BlkPropertyValue :=
  bindP (tagP ['r', '=']) fun _ => mapP parse_real fun t => .Real t

/-- parse_property_boolean (src/parser.rs). -/
def parse_property_boolean : Parser BlkPropertyValue :=
  bindP (tagP ['b', '=']) fun _ => mapP parse_boolean fun b => .Boolean b

/-- parse_property_vector2 (src/parser.rs). -/
def parse_property_vector2 : Parser BlkPropertyValue :=
  bindP (tagP ['p', '2', '=']) fun _ =>
    bindP parse_real fun x =>
    bindP parse_vector_delimiter fun _ =>
    mapP parse_real fun y => .Vector2 x y

/-- parse_property_vector3 (src/parser.rs). -/
def parse_property_vector3 : Parser BlkPropertyValue :=
  bindP (tagP ['p', '3', '=']) fun _ =>
    bindP parse_real fun x => bindP parse_vector_delimiter fun _ =>
    bindP parse_real fun y => bindP parse_vector_delimiter fun _ =>
    mapP parse_real fun z => .Vector3 x y z

/-- parse_property_vector4 (src/parser.rs). -/
def parse_property_vector4 : Parser BlkPropertyValue :=
  bindP (tagP ['p', '4', '=']) fun _ =>
    bindP parse_real fun x => bindP parse_vector_delimiter fun _ =>
    bindP parse_real fun y => bindP parse_vector_delimiter fun _ =>
    bindP parse_real fun z => bindP parse_vector_delimiter fun _ =>
    mapP parse_real fun w => .Vector4 x y z w

/-- parse_property_color (src/parser.rs). -/
def parse_property_color : Parser BlkPropertyValue :=
  bindP (tagP ['c', '=']) fun _ =>
    bindP parse_integer fun r => bindP parse_vector_delimiter fun _ =>
    bindP parse_integer fun g => bindP parse_vector_delimiter fun _ =>
    bindP parse_integer fun b => bindP parse_vector_delimiter fun _ =>
    mapP parse_integer fun a => .Color r g b a

/-- The eight alternatives of the historical parse_property, in source
order: text, integer, real, boolean, vector2, vector3, vector4, color. -/
def parse_property_alts : Parser BlkPropertyValue :=
  altP parse_property_text (altP parse_property_integer (altP parse_property_real
    (altP parse_property_boolean (altP parse_property_vector2 (altP parse_property_vector3
      (altP parse_property_vector4 parse_property_color))))))

/-- parse_property (src/parser.rs): `identifier ':' (eight tagged
alternatives)`. -/
def parse_property_hist : Parser BlkEntry :=
  bindP parse_identifier fun id =>
  bindP (charP ':') fun _ =>
  mapP parse_property_alts fun v => .Property id v

/-- Forgetting the error payload of a parse result: the success set and the
produced (remaining input, value). -/
def toOpt {α : Type} : PResult α → Option (Input × α)
  | .ok x => some x
  | .error _ => none

theorem toOpt_mapP {α β : Type} (p : Parser α) (f : α → β) (j : Input) :
    toOpt (mapP p f j) = Option.map (fun x => (x.1, f x.2)) (toOpt (p j)) := by
  unfold mapP toOpt
  cases p j with
  | error e => rfl
  | ok x => rfl

theorem altP_skip {α : Type} {p q : Parser α} {j : Input}
    (hp : ∃ rest kk, p j = .error (.syntaxErr rest kk)) : altP p q j = q j := by
  obtain ⟨rest, kk, hp⟩ := hp
  unfold altP
  rw [hp]

theorem toOpt_altP {α : Type} {p q : Parser α} {j : Input}
    (hnf : p j ≠ .error .fuelOut)
    (hq : ∀ r k, p j = .error (.failure r k) → toOpt (q j) = none) :
    toOpt (altP p q j) =
      (match toOpt (p j) with
        | some x => some x
        | none => toOpt (q j)) := by
  unfold altP
  cases hp : p j with
  | ok x => rfl
  | error e =>
    cases e with
    | fuelOut => exact absurd hp hnf
    | syntaxErr rest kk => rfl
    | failure rest kk =>
      show (none : Option (Input × α)) = toOpt (q j)
      rw [hq rest kk hp]

theorem noFuel_pp_text : NoFuel parse_property_text :=
  noFuel_bindP (noFuel_tagP _) fun _ => noFuel_mapP _ noFuel_parse_string

theorem noFuel_pp_integer : NoFuel parse_property_integer :=
  noFuel_bindP (noFuel_tagP _) fun _ => noFuel_mapP _ noFuel_parse_integer

theorem noFuel_pp_real : NoFuel parse_property_real :=
  noFuel_bindP (noFuel_tagP _) fun _ => noFuel_mapP _ noFuel_parse_real

theorem noFuel_pp_boolean : NoFuel parse_property_boolean :=
  noFuel_bindP (noFuel_tagP _) fun _ => noFuel_mapP _ noFuel_parse_boolean

theorem noFuel_pp_vector2 : NoFuel parse_property_vector2 :=
  noFuel_bindP (noFuel_tagP _) fun _ => noFuel_bindP noFuel_parse_real fun _ =>
    noFuel_bindP noFuel_parse_vector_delimiter fun _ => noFuel_mapP _ noFuel_parse_real

theorem noFuel_pp_vector3 : NoFuel parse_property_vector3 :=
  noFuel_bindP (noFuel_tagP _) fun _ => noFuel_bindP noFuel_parse_real fun _ =>
    noFuel_bindP noFuel_parse_vector_delimiter fun _ => noFuel_bindP noFuel_parse_real fun _ =>
      noFuel_bindP noFuel_parse_vector_delimiter fun _ => noFuel_mapP _ noFuel_parse_real

theorem noFuel_pp_vector4 : NoFuel parse_property_vector4 :=
  noFuel_bindP (noFuel_tagP _) fun _ => noFuel_bindP noFuel_parse_real fun _ =>
    noFuel_bindP noFuel_parse_vector_delimiter fun _ => noFuel_bindP noFuel_parse_real fun _ =>
      noFuel_bindP noFuel_parse_vector_delimiter fun _ => noFuel_bindP noFuel_parse_real fun _ =>
        noFuel_bindP noFuel_parse_vector_delimiter fun _ => noFuel_mapP _ noFuel_parse_real

theorem property_tail_equiv (g : BlkPropertyValue → BlkEntry) : ∀ j : Input,
    toOpt (mapP parse_property_alts g j) =
    toOpt (bindP parse_blk_type (fun ty => bindP (charP '=') fun _ =>
      mapP (parse_property_value ty) g) j) := by
  intro j
  rcases j with _ | ⟨c, j'⟩
  · rfl
  by_cases hct : c = 't'
  · subst hct
    rcases j' with _ | ⟨d, k⟩
    · rfl
    by_cases hd : d = '='
    · subst hd
      show toOpt (mapP parse_property_alts g ('t' :: '=' :: k)) =
        toOpt (mapP (parse_property_value .text) g k)
      rw [toOpt_mapP, toOpt_mapP]
      unfold parse_property_alts
      rw [toOpt_altP (noFuel_pp_text _) ?hqside]
      case hqside => exact fun _ _ _ => rfl
      rw [show parse_property_text ('t' :: '=' :: k) = parse_property_value .text k from rfl]
      cases hv : toOpt (parse_property_value BlkType.text k) <;> rfl
    · simp [toOpt, mapP, bindP, altP, charP, tagP, tagGo, parse_blk_type, parse_property_alts,
      parse_property_text, parse_property_integer, parse_property_real, parse_property_boolean,
      parse_property_vector2, parse_property_vector3, parse_property_vector4,
      parse_property_color, hd]
  by_cases hcb : c = 'b'
  · subst hcb
    rcases j' with _ | ⟨d, k⟩
    · rfl
    by_cases hd : d = '='
    · subst hd
      show toOpt (mapP parse_property_alts g ('b' :: '=' :: k)) =
        toOpt (mapP (parse_property_value .boolean) g k)
      rw [toOpt_mapP, toOpt_mapP]
      unfold parse_property_alts
      rw [altP_skip ⟨_, _, rfl⟩, altP_skip ⟨_, _, rfl⟩, altP_skip ⟨_, _, rfl⟩]
      rw [toOpt_altP (noFuel_pp_boolean _) ?hqside]
      case hqside => exact fun _ _ _ => rfl
      rw [show parse_property_boolean ('b' :: '=' :: k) = parse_property_value .boolean k from rfl]
      cases hv : toOpt (parse_property_value BlkType.boolean k) <;> rfl
    · simp [toOpt, mapP, bindP, altP, charP, tagP, tagGo, parse_blk_type, parse_property_alts,
      parse_property_text, parse_property_integer, parse_property_real, parse_property_boolean,
      parse_property_vector2, parse_property_vector3, parse_property_vector4,
      parse_property_color, hd]
  by_cases hci : c = 'i'
  · subst hci
    rcases j' with _ | ⟨d, k⟩
    · rfl
    by_cases hd : d = '='
    · subst hd
      show toOpt (mapP parse_property_alts g ('i' :: '=' :: k)) =
        toOpt (mapP (parse_property_value .integer) g k)
      rw [toOpt_mapP, toOpt_mapP]
      unfold parse_property_alts
      rw [altP_skip ⟨_, _, rfl⟩]
      rw [toOpt_altP (noFuel_pp_integer _) ?hqside]
      case hqside => exact fun _ _ _ => rfl
      rw [show parse_property_integer ('i' :: '=' :: k) = parse_property_value .integer k from rfl]
      cases hv : toOpt (parse_property_value BlkType.integer k) <;> rfl
    · simp [toOpt, mapP, bindP, altP, charP, tagP, tagGo, parse_blk_type, parse_property_alts,
      parse_property_text, parse_property_integer, parse_property_real, parse_property_boolean,
      parse_property_vector2, parse_property_vector3, parse_property_vector4,
      parse_property_color, hd]
  by_cases hcr : c = 'r'
  · subst hcr
    rcases j' with _ | ⟨d, k⟩
    · rfl
    by_cases hd : d = '='
    · subst hd
      show toOpt (mapP parse_property_alts g ('r' :: '=' :: k)) =
        toOpt (mapP (parse_property_value .real) g k)
      rw [toOpt_mapP, toOpt_mapP]
      unfold parse_property_alts
      rw [altP_skip ⟨_, _, rfl⟩, altP_skip ⟨_, _, rfl⟩]
      rw [toOpt_altP (noFuel_pp_real _) ?hqside]
      case hqside => exact fun _ _ _ => rfl
      rw [show parse_property_real ('r' :: '=' :: k) = parse_property_value .real k from rfl]
      cases hv : toOpt (parse_property_value BlkType.real k) <;> rfl
    · simp [toOpt, mapP, bindP, altP, charP, tagP, tagGo, parse_blk_type, parse_property_alts,
      parse_property_text, parse_property_integer, parse_property_real, parse_property_boolean,
      parse_property_vector2, parse_property_vector3, parse_property_vector4,
      parse_property_color, hd]
  by_cases hcc : c = 'c'
  · subst hcc
    rcases j' with _ | ⟨d, k⟩
    · rfl
    by_cases hd : d = '='
    · subst hd
      show toOpt (mapP parse_property_alts g ('c' :: '=' :: k)) =
        toOpt (mapP (parse_property_value .color) g k)
      rw [toOpt_mapP, toOpt_mapP]
      unfold parse_property_alts
      rw [altP_skip ⟨_, _, rfl⟩, altP_skip ⟨_, _, rfl⟩, altP_skip ⟨_, _, rfl⟩, altP_skip ⟨_, _, rfl⟩, altP_skip ⟨_, _, rfl⟩, altP_skip ⟨_, _, rfl⟩, altP_skip ⟨_, _, rfl⟩]
      rw [show parse_property_color ('c' :: '=' :: k) = parse_property_value .color k from rfl]
    · simp [toOpt, mapP, bindP, altP, charP, tagP, tagGo, parse_blk_type, parse_property_alts,
      parse_property_text, parse_property_integer, parse_property_real, parse_property_boolean,
      parse_property_vector2, parse_property_vector3, parse_property_vector4,
      parse_property_color, hd]
  by_cases hcp : c = 'p'
  · subst hcp
    rcases j' with _ | ⟨d, k'⟩
    · rfl
    by_cases hd2 : d = '2'
    · subst hd2
      rcases k' with _ | ⟨e, k⟩
      · rfl
      by_cases he : e = '='
      · subst he
        show toOpt (mapP parse_property_alts g ('p' :: '2' :: '=' :: k)) =
          toOpt (mapP (parse_property_value .point2) g k)
        rw [toOpt_mapP, toOpt_mapP]
        unfold parse_property_alts
        rw [altP_skip ⟨_, _, rfl⟩, altP_skip ⟨_, _, rfl⟩, altP_skip ⟨_, _, rfl⟩, altP_skip ⟨_, _, rfl⟩]
        rw [toOpt_altP (noFuel_pp_vector2 _) ?hqside]
        case hqside => exact fun _ _ _ => rfl
        rw [show parse_property_vector2 ('p' :: '2' :: '=' :: k) = parse_property_value .point2 k from rfl]
        cases hv : toOpt (parse_property_value BlkType.point2 k) <;> rfl
      · simp [toOpt, mapP, bindP, altP, charP, tagP, tagGo, parse_blk_type, parse_property_alts,
      parse_property_text, parse_property_integer, parse_property_real, parse_property_boolean,
      parse_property_vector2, parse_property_vector3, parse_property_vector4,
      parse_property_color, he]
    by_cases hd3 : d = '3'
    · subst hd3
      rcases k' with _ | ⟨e, k⟩
      · rfl
      by_cases he : e = '='
      · subst he
        show toOpt (mapP parse_property_alts g ('p' :: '3' :: '=' :: k)) =
          toOpt (mapP (parse_property_value .point3) g k)
        rw [toOpt_mapP, toOpt_mapP]
        unfold parse_property_alts
        rw [altP_skip ⟨_, _, rfl⟩, altP_skip ⟨_, _, rfl⟩, altP_skip ⟨_, _, rfl⟩, altP_skip ⟨_, _, rfl⟩, altP_skip ⟨_, _, rfl⟩]
        rw [toOpt_altP (noFuel_pp_vector3 _) ?hqside]
        case hqside => exact fun _ _ _ => rfl
        rw [show parse_property_vector3 ('p' :: '3' :: '=' :: k) = parse_property_value .point3 k from rfl]
        cases hv : toOpt (parse_property_value BlkType.point3 k) <;> rfl
      · simp [toOpt, mapP, bindP, altP, charP, tagP, tagGo, parse_blk_type, parse_property_alts,
      parse_property_text, parse_property_integer, parse_property_real, parse_property_boolean,
      parse_property_vector2, parse_property_vector3, parse_property_vector4,
      parse_property_color, he]
    by_cases hd4 : d = '4'
    · subst hd4
      rcases k' with _ | ⟨e, k⟩
      · rfl
      by_cases he : e = '='
      · subst he
        show toOpt (mapP parse_property_alts g ('p' :: '4' :: '=' :: k)) =
          toOpt (mapP (parse_property_value .point4) g k)
        rw [toOpt_mapP, toOpt_mapP]
        unfold parse_property_alts
        rw [altP_skip ⟨_, _, rfl⟩, altP_skip ⟨_, _, rfl⟩, altP_skip ⟨_, _, rfl⟩, altP_skip ⟨_, _, rfl⟩, altP_skip ⟨_, _, rfl⟩, altP_skip ⟨_, _, rfl⟩]
        rw [toOpt_altP (noFuel_pp_vector4 _) ?hqside]
        case hqside => exact fun _ _ _ => rfl
        rw [show parse_property_vector4 ('p' :: '4' :: '=' :: k) = parse_property_value .point4 k from rfl]
        cases hv : toOpt (parse_property_value BlkType.point4 k) <;> rfl
      · simp [toOpt, mapP, bindP, altP, charP, tagP, tagGo, parse_blk_type, parse_property_alts,
      parse_property_text, parse_property_integer, parse_property_real, parse_property_boolean,
      parse_property_vector2, parse_property_vector3, parse_property_vector4,
      parse_property_color, he]
    · simp [toOpt, mapP, bindP, altP, charP, tagP, tagGo, parse_blk_type, parse_property_alts,
      parse_property_text, parse_property_integer, parse_property_real, parse_property_boolean,
      parse_property_vector2, parse_property_vector3, parse_property_vector4,
      parse_property_color, hd2, hd3, hd4]
  · simp [toOpt, mapP, bindP, altP, charP, tagP, tagGo, parse_blk_type, parse_property_alts,
      parse_property_text, parse_property_integer, parse_property_real, parse_property_boolean,
      parse_property_vector2, parse_property_vector3, parse_property_vector4,
      parse_property_color, hct, hcb, hci, hcr, hcc, hcp]

/-- C5: the historical property parser of src/parser.rs (eight independent
tagged alternatives) and the canonical unified tag-then-dispatch property
parser of src/parsers/blk.rs succeed on exactly the same inputs, and on
success produce the same property entry and the same remaining input (error
payloads aside, which `toOpt` discards). -/
theorem property_parser_refinement :
    ∀ i : Input, toOpt (parse_property_hist i) = toOpt (parse_property i) := by
  intro i
  unfold parse_property_hist parse_property bindP
  cases hid : parse_identifier i with
  | error e => rfl
  | ok x =>
    obtain ⟨r1, id⟩ := x
    simp only
    cases hc : charP ':' r1 with
    | error e => rfl
    | ok y =>
      obtain ⟨r2, c2⟩ := y
      simp only
      exact property_tail_equiv (fun v => .Property id v) r2


/-! ## Claim C4: the serializer against its specification

The definitions below are written from the specification text (§4.6
Serializer) rather than from the source, to be compared with
stringify_config: d indentation units of 4 spaces each before every entry at
depth d; sections as name, opening brace, newline, children at depth d+1,
then d indentation units, closing brace, newline; properties as
key colon tag equals value newline, with vector components and color
channels joined with comma-space. -/

/-- Modelled from the spec: one indentation unit is 4 spaces. -/
def spec_indent_unit : List Char := List.replicate 4 ' '

/-- Modelled from the spec: `d` indentation units before an entry at depth
`d`. -/
def spec_indent (d : Nat) : List Char := (List.replicate d spec_indent_unit).flatten

/-- Modelled from the spec: components joined with comma-space. -/
def spec_join : List (List Char) → List Char
  | [] => []
  | [x] => x
  | x :: y :: t => x ++ [',', ' '] ++ spec_join (y :: t)

/-- Modelled from the spec: the `tag=value` rendering of each property value
kind (Text quoted raw, Boolean as yes/no, Integer/Real decimal, vectors and
colors with comma-space separated components). -/
def spec_tag_value : BlkPropertyValue → List Char
  | .Text s => 't' :: '=' :: '"' :: (s ++ ['"'])
  | .Boolean b => 'b' :: '=' :: (if b then ['y', 'e', 's'] else ['n', 'o'])
  | .Integer n => 'i' :: '=' :: intChars n
  | .Real t => 'r' :: '=' :: t
  | .Vector2 x y => 'p' :: '2' :: '=' :: spec_join [x, y]
  | .Vector3 x y z => 'p' :: '3' :: '=' :: spec_join [x, y, z]
  | .Vector4 x y z w => 'p' :: '4' :: '=' :: spec_join [x, y, z, w]
  | .Color r g b a => 'c' :: '=' :: spec_join [intChars r, intChars g, intChars b, intChars a]

/-- Modelled from the spec: the recursive pretty-printer over entries at a
given depth. -/
def spec_render : List BlkEntry → Nat → List Char
  | [], _ => []
  | .Property k v :: es, d =>
    spec_indent d ++ k ++ [':'] ++ spec_tag_value v ++ ['\n'] ++ spec_render es d
  | .Section n inner :: es, d =>
    spec_indent d ++ n ++ ['\x7b', '\n'] ++ spec_render inner (d + 1) ++
      spec_indent d ++ ['\x7d', '\n'] ++ spec_render es d

/-- Modelled from the spec: the serializer renders every root entry at depth
0. -/
def spec_serialize (c : BlkConfig) : List Char := spec_render c.block.entries 0

theorem sizeOf_entries_pos (es : List BlkEntry) : 1 ≤ sizeOf es := by
  cases es with
  | nil => simp
  | cons e t => simp; omega

theorem joinComma_eq_spec_join : ∀ xs : List (List Char), joinComma xs = spec_join xs := by
  intro xs
  match xs with
  | [] => rfl
  | [x] => rfl
  | x :: y :: t =>
    simp only [joinComma, spec_join]
    rw [joinComma_eq_spec_join (y :: t)]

theorem stringify_value_spec (v : BlkPropertyValue) :
    stringify_value v = ':' :: spec_tag_value v := by
  cases v <;> simp [stringify_value, spec_tag_value, joinComma_eq_spec_join]

theorem indentC_eq_spec_indent (d : Nat) : indentC d = spec_indent d := by
  unfold indentC spec_indent spaces4 spec_indent_unit
  rfl

theorem stringify_entries_eq_spec :
    ∀ (es : List BlkEntry) (d : Nat), stringify_entries es d = spec_render es d := by
  have H : ∀ (n : Nat) (es : List BlkEntry), sizeOf es ≤ n → ∀ d,
      stringify_entries es d = spec_render es d := by
    intro n
    induction n with
    | zero => intro es h d; have := sizeOf_entries_pos es; omega
    | succ n ih =>
      intro es h d
      match es with
      | [] => simp [stringify_entries, spec_render]
      | .Property k v :: t =>
        have hs : sizeOf (BlkEntry.Property k v :: t) = 1 + sizeOf (BlkEntry.Property k v) + sizeOf t := by
          simp
        have hsp : 1 ≤ sizeOf (BlkEntry.Property k v) := by
          rw [BlkEntry.Property.sizeOf_spec]; omega
        simp only [stringify_entries, spec_render]
        rw [ih t (by omega) d, stringify_value_spec, indentC_eq_spec_indent]
        simp
      | .Section nn inner :: t =>
        have hs : sizeOf (BlkEntry.Section nn inner :: t) = 1 + sizeOf (BlkEntry.Section nn inner) + sizeOf t := by
          simp
        have hsp : sizeOf (BlkEntry.Section nn inner) = 1 + sizeOf nn + sizeOf inner := by
          simp
        simp only [stringify_entries, spec_render]
        rw [ih inner (by omega) (d + 1), ih t (by omega) d, indentC_eq_spec_indent]
  intro es d
  exact H (sizeOf es) es (Nat.le_refl _) d

/-- C4: the source serializer agrees with the specification's reference
pretty-printer on every configuration (and on every entry list at every
depth): indentation of 4-space units per depth, section and property layout,
and comma-space joined vector/color components. -/
theorem stringify_config_spec :
    (∀ c : BlkConfig, stringify_config c = spec_serialize c) ∧
    (∀ (es : List BlkEntry) (d : Nat), stringify_entries es d = spec_render es d) :=
  ⟨fun c => stringify_entries_eq_spec c.block.entries 0, stringify_entries_eq_spec⟩

end Blk
